import Mathlib

/-!
Verification of the multi-format tool-call extraction engine
(`src/core/parsers/roo_tool_parser.py`).

Python strings are modelled as `List Char` (`Str`).  Python's `json`
module is modelled by an executable parser/serializer over the `JVal`
type below.  Exceptions that the Python code can raise and catch are
modelled with `Except Unit`; a `.error` value at the boundary of a
function models an exception escaping that function.

Modelling notes (divergences that no theorem below depends on):
* Python's `str.strip` / regex `\s` / regex `\w` also accept some
  non-ASCII code points; the model uses the ASCII sets.
* Python re-serializes floats through `repr`; the model keeps the raw
  numeric literal (`JVal.jfloat`).  Integers are modelled exactly.
* Lone surrogates in `\uXXXX` string escapes are mapped to U+FFFD
  (Lean's `Char` cannot hold a lone surrogate); surrogate pairs are
  combined exactly as CPython does.
* The random `make_tool_call_id()` call-id is not modelled (the id is
  a fresh random string, carried by no claim).
-/

set_option maxRecDepth 100000

/-- Python `str` modelled as a list of characters. -/
abbrev Str := List Char

/-- ASCII whitespace, the model of Python's `str.strip` character set and
of the regex class `\s`. -/
def pyWsChar (c : Char) : Bool :=
  c == ' ' || c == '\t' || c == '\n' || c == '\r' || c == '\x0b' || c == '\x0c'

/-- Python `s.strip()`. -/
def pyStrip (s : Str) : Str :=
  ((s.dropWhile pyWsChar).reverse.dropWhile pyWsChar).reverse

/-- Python `s.rstrip()`. -/
def pyStripR (s : Str) : Str :=
  (s.reverse.dropWhile pyWsChar).reverse

/-- Python `p in s` (substring containment). -/
def strContains (s p : Str) : Bool := decide (p <:+: s)

/-- Python `s.startswith(p)`. -/
def strStarts (s p : Str) : Bool := decide (p <+: s)

/-- Python `s.endswith(p)`. -/
def strEnds (s p : Str) : Bool := decide (p <:+ s)

/-- Python `s.find(p)`: index of the first occurrence, `none` for `-1`. -/
def pyFind : Str → Str → Option Nat
  | [], p => if p = [] then some 0 else none
  | c :: rest, p =>
    if p <+: (c :: rest) then some 0 else (pyFind rest p).map (· + 1)

/-- Helper for `pyRFind`: keeps the index of the last hit seen so far. -/
def pyRFindAux : Str → Char → Nat → Option Nat → Option Nat
  | [], _, _, best => best
  | x :: rest, c, i, best =>
    pyRFindAux rest c (i + 1) (if x == c then some i else best)

/-- Python `s.rfind(c)` for a single character, `none` for `-1`. -/
def pyRFind (s : Str) (c : Char) : Option Nat := pyRFindAux s c 0 none

/-- Fueled worker for `replaceAll`; the fuel is the input length, which
bounds the recursion because every step consumes at least one char. -/
def replaceAllF : Nat → Str → Str → Str
  | 0, s, _ => s
  | _ + 1, [], _ => []
  | fuel + 1, c :: rest, p =>
    if p ≠ [] ∧ p <+: (c :: rest) then
      replaceAllF fuel ((c :: rest).drop p.length) p
    else c :: replaceAllF fuel rest p

/-- Python `s.replace(p, "")`: delete all non-overlapping occurrences of
`p`, scanning left to right. -/
def replaceAll (s p : Str) : Str := replaceAllF s.length s p

/-- The fixed vocabulary `ROO_TOOLS` of recognized tool names. -/
def ROO_TOOLS : List Str :=
  ["execute_command".data, "read_file".data, "write_to_file".data,
   "apply_diff".data, "search_files".data, "list_files".data,
   "list_code_definition_names".data, "browser_action".data,
   "use_mcp_tool".data, "access_mcp_resource".data,
   "ask_followup_question".data, "attempt_completion".data,
   "switch_mode".data, "new_task".data, "fetch_instructions".data]

/-- The literal `<name>`. -/
def openTag (t : Str) : Str := '<' :: (t ++ ['>'])

/-- The literal `</name>`. -/
def closeTag (t : Str) : Str := '<' :: '/' :: (t ++ ['>'])

/-- The literal `<name` (partial opening tag, no closing bracket). -/
def openPart (t : Str) : Str := '<' :: t

/-- The literal `</name` (partial closing tag, no closing bracket). -/
def closePart (t : Str) : Str := '<' :: '/' :: t

/-- The Hermes start sentinel `self.tool_call_start_token`. -/
def toolCallStartToken : Str := "<tool_call>".data

/-- The Hermes end sentinel `self.tool_call_end_token`. -/
def toolCallEndToken : Str := "</tool_call>".data

/-- The four removal patterns generated for one tag name in
`clean_content_from_xml_tags`. -/
def toolPatterns (t : Str) : List Str :=
  [openTag t, closeTag t, openPart t, closePart t]

/-- The hardcoded Hermes/`<tools>` removal patterns of
`clean_content_from_xml_tags`, in source order. -/
def hermesCleanPatterns : List Str :=
  ["<tool_call>".data, "</tool_call>".data, "<tool_call".data,
   "</tool_call".data, "<tools>".data, "</tools>".data,
   "<tools".data, "</tools".data]

/-- The full, ordered pattern list applied by
`clean_content_from_xml_tags(content, tool_name)`. -/
def cleanPatterns (tool_name : Str) : List Str :=
  toolPatterns tool_name ++ (ROO_TOOLS.map toolPatterns).flatten ++ hermesCleanPatterns

/-- The content sanitizer `clean_content_from_xml_tags`: removes every
pattern in order (the source's `if pattern in cleaned` guard before
`replace` does not change the result), strips, and maps empty input or
empty residue to `None`. -/
def clean_content_from_xml_tags (content tool_name : Str) : Option Str :=
  if content = [] then none
  else
    let cleaned := (cleanPatterns tool_name).foldl replaceAll content
    let stripped := pyStrip cleaned
    if stripped = [] then none else some stripped

/-! JSON values.  Arrays and objects are separate mutual inductives so
that all recursion over them is structural (kernel-reducible). -/

mutual
inductive JVal where
  | jnull
  | jbool (b : Bool)
  | jint (n : Int)
  | jfloat (raw : Str)
  | jstr (s : Str)
  | jarr (xs : JArr)
  | jobj (kvs : JObj)
inductive JArr where
  | nil
  | cons (v : JVal) (rest : JArr)
inductive JObj where
  | nil
  | cons (k : Str) (v : JVal) (rest : JObj)
end

deriving instance DecidableEq for JVal, JArr, JObj

/-- First value stored under key `k` (parser keys are unique). -/
def jObjLookup (k : Str) : JObj → Option JVal
  | .nil => none
  | .cons k' v rest => if k' = k then some v else jObjLookup k rest

/-- Python dict insertion: an existing key keeps its position but gets
the new value, a new key is appended. -/
def jObjInsert (k : Str) (v : JVal) : JObj → JObj
  | .nil => .cons k v .nil
  | .cons k' v' rest =>
    if k' = k then .cons k' v rest else .cons k' v' (jObjInsert k v rest)

/-- Python `key in dict`. -/
def jObjHasKey (k : Str) : JObj → Bool
  | .nil => false
  | .cons k' _ rest => k' == k || jObjHasKey k rest

/-- Python `"key" in list`: only a string element can equal a string. -/
def jArrHasStr (k : Str) : JArr → Bool
  | .nil => false
  | .cons (.jstr s) rest => s == k || jArrHasStr k rest
  | .cons _ rest => jArrHasStr k rest

/-- Append one element at the end of a JSON array. -/
def jArrSnoc : JArr → JVal → JArr
  | .nil, v => .cons v .nil
  | .cons x rest, v => .cons x (jArrSnoc rest v)

/-- Python `key in value` for a parsed JSON value: key lookup on a dict,
membership on a list, substring test on a string, `TypeError` otherwise. -/
def pyIn (key : Str) (v : JVal) : Except Unit Bool :=
  match v with
  | .jobj kvs => .ok (jObjHasKey key kvs)
  | .jarr xs => .ok (jArrHasStr key xs)
  | .jstr s => .ok (strContains s key)
  | _ => .error ()

/-- Python `value[key]` for a parsed JSON value: dict lookup
(`KeyError` when absent), `TypeError` on every other shape. -/
def pyIndex (v : JVal) (key : Str) : Except Unit JVal :=
  match v with
  | .jobj kvs =>
    match jObjLookup key kvs with
    | some x => .ok x
    | none => .error ()
  | _ => .error ()

/-- Python `dict.get("arguments", {})` (every caller has a dict here). -/
def pyGetArguments (v : JVal) : JVal :=
  match v with
  | .jobj kvs => (jObjLookup "arguments".data kvs).getD (.jobj .nil)
  | _ => .jobj .nil

/-- Python falsiness of a JSON value (`if not args_dict`). -/
def pyFalsy : JVal → Bool
  | .jnull => true
  | .jbool b => !b
  | .jint n => n == 0
  | .jfloat _ => false
  | .jstr s => s.isEmpty
  | .jarr .nil => true
  | .jarr _ => false
  | .jobj .nil => true
  | .jobj _ => false

/-! Serialization: `json.dumps(v, ensure_ascii=False)` with the default
separators `", "` and `": "`. -/

/-- Lowercase hex digit. -/
def hexDigitChar (n : Nat) : Char :=
  if n < 10 then Char.ofNat (48 + n) else Char.ofNat (87 + n)

/-- JSON escape of one character under `ensure_ascii=False`. -/
def escChar (c : Char) : Str :=
  if c = '"' then ['\\', '"']
  else if c = '\\' then ['\\', '\\']
  else if c = '\n' then ['\\', 'n']
  else if c = '\r' then ['\\', 'r']
  else if c = '\t' then ['\\', 't']
  else if c = '\x08' then ['\\', 'b']
  else if c = '\x0c' then ['\\', 'f']
  else if c.toNat < 0x20 then
    ['\\', 'u', '0', '0', hexDigitChar (c.toNat / 16), hexDigitChar (c.toNat % 16)]
  else [c]

/-- Serialized JSON string literal. -/
def escString (s : Str) : Str :=
  '"' :: s.foldr (fun c a => escChar c ++ a) ['"']

mutual
/-- Model of `json.dumps(v, ensure_ascii=False)`. -/
def jsonDumps : JVal → Str
  | .jnull => "null".data
  | .jbool true => "true".data
  | .jbool false => "false".data
  | .jint n => (toString n).data
  | .jfloat raw => raw
  | .jstr s => escString s
  | .jarr a => '[' :: (dumpsArr a ++ [']'])
  | .jobj o => '{' :: (dumpsObj o ++ ['}'])
/-- Comma-joined array elements. -/
def dumpsArr : JArr → Str
  | .nil => []
  | .cons x .nil => jsonDumps x
  | .cons x rest => jsonDumps x ++ ", ".data ++ dumpsArr rest
/-- Comma-joined `"key": value` members. -/
def dumpsObj : JObj → Str
  | .nil => []
  | .cons k v .nil => escString k ++ ": ".data ++ jsonDumps v
  | .cons k v rest =>
    escString k ++ ": ".data ++ jsonDumps v ++ ", ".data ++ dumpsObj rest
end

/-! Parsing: model of `json.loads` (strict mode, default
`parse_constant` accepting NaN, Infinity and negative Infinity). -/

/-- JSON whitespace (the `json` module's `[ \t\n\r]*` matcher). -/
def jsonWsChar (c : Char) : Bool :=
  c == ' ' || c == '\t' || c == '\n' || c == '\r'

/-- Skip JSON whitespace. -/
def skipWs (s : Str) : Str := s.dropWhile jsonWsChar

/-- ASCII decimal digit. -/
def isDigitC (c : Char) : Bool := '0' ≤ c && c ≤ '9'

/-- Hex digit value. -/
def hexDigitVal (c : Char) : Option Nat :=
  if isDigitC c then some (c.toNat - 48)
  else if 'a' ≤ c && c ≤ 'f' then some (c.toNat - 87)
  else if 'A' ≤ c && c ≤ 'F' then some (c.toNat - 55)
  else none

/-- Four hex digits. -/
def parse4Hex : Str → Option (Nat × Str)
  | a :: b :: c :: d :: r =>
    match hexDigitVal a, hexDigitVal b, hexDigitVal c, hexDigitVal d with
    | some x, some y, some z, some w => some (((x * 16 + y) * 16 + z) * 16 + w, r)
    | _, _, _, _ => none
  | _ => none

/-- Decimal digits to a natural number. -/
def digitsToNat (ds : Str) : Nat := ds.foldl (fun a c => a * 10 + (c.toNat - 48)) 0

/-- Exponent part `[eE][+-]?digits` of a JSON number, or nothing. -/
def parseExpPart (s : Str) : Str × Str :=
  match s with
  | e :: rest =>
    if e == 'e' || e == 'E' then
      match rest with
      | sgn :: rest2 =>
        if sgn == '+' || sgn == '-' then
          match rest2.span isDigitC with
          | ([], _) => ([], s)
          | (ds, rr) => (e :: sgn :: ds, rr)
        else
          match rest.span isDigitC with
          | ([], _) => ([], s)
          | (ds, rr) => (e :: ds, rr)
      | [] => ([], s)
    else ([], s)
  | [] => ([], s)

/-- Fraction part `.digits` of a JSON number, or nothing. -/
def parseFracPart (s : Str) : Str × Str :=
  match s with
  | '.' :: r =>
    match r.span isDigitC with
    | ([], _) => ([], s)
    | (ds, rr) => ('.' :: ds, rr)
  | _ => ([], s)

/-- Model of the scanner's `NUMBER_RE` plus the NaN/Infinity constants:
maximal munch of `-?(0|[1-9]\d*)(\.\d+)?([eE][+-]?\d+)?`. -/
def parseNumberToken (s : Str) : Option (JVal × Str) :=
  if strStarts s "NaN".data then some (.jfloat "NaN".data, s.drop 3)
  else if strStarts s "Infinity".data then some (.jfloat "Infinity".data, s.drop 8)
  else if strStarts s "-Infinity".data then some (.jfloat "-Infinity".data, s.drop 9)
  else
    let negs : Bool × Str := match s with | '-' :: r => (true, r) | _ => (false, s)
    match negs.2 with
    | [] => none
    | c :: _ =>
      if ¬ isDigitC c then none
      else
        let ip : Str × Str :=
          match negs.2 with
          | '0' :: r => (['0'], r)
          | other => other.span isDigitC
        let fp := parseFracPart ip.2
        let ep := parseExpPart fp.2
        if fp.1 = [] ∧ ep.1 = [] then
          some (.jint (if negs.1 then -(digitsToNat ip.1 : Int) else (digitsToNat ip.1 : Int)), ip.2)
        else
          some (.jfloat ((if negs.1 then ['-'] else []) ++ ip.1 ++ fp.1 ++ ep.1), ep.2)

/-- One escaped or literal character of a JSON string body; returns the
decoded character(s) and the rest.  Strict mode: raw control characters
and unknown escapes fail.  Lone surrogates decode to U+FFFD (see header
note). -/
def parseJStringBody : Nat → Str → Option (Str × Str)
  | 0, _ => none
  | _ + 1, [] => none
  | fuel + 1, c :: rest =>
    if c = '"' then some ([], rest)
    else if c = '\\' then
      match rest with
      | [] => none
      | e :: rest2 =>
        if e = '"' ∨ e = '\\' ∨ e = '/' then
          (parseJStringBody fuel rest2).map (fun p => (e :: p.1, p.2))
        else if e = 'b' then
          (parseJStringBody fuel rest2).map (fun p => ('\x08' :: p.1, p.2))
        else if e = 'f' then
          (parseJStringBody fuel rest2).map (fun p => ('\x0c' :: p.1, p.2))
        else if e = 'n' then
          (parseJStringBody fuel rest2).map (fun p => ('\n' :: p.1, p.2))
        else if e = 'r' then
          (parseJStringBody fuel rest2).map (fun p => ('\r' :: p.1, p.2))
        else if e = 't' then
          (parseJStringBody fuel rest2).map (fun p => ('\t' :: p.1, p.2))
        else if e = 'u' then
          match parse4Hex rest2 with
          | none => none
          | some (n, r3) =>
            if 0xD800 ≤ n ∧ n ≤ 0xDBFF then
              match r3 with
              | '\\' :: 'u' :: r4 =>
                match parse4Hex r4 with
                | some (m, r5) =>
                  if 0xDC00 ≤ m ∧ m ≤ 0xDFFF then
                    (parseJStringBody fuel r5).map
                      (fun p => (Char.ofNat (0x10000 + (n - 0xD800) * 0x400 + (m - 0xDC00)) :: p.1, p.2))
                  else
                    (parseJStringBody fuel r3).map (fun p => ('�' :: p.1, p.2))
                | none =>
                  (parseJStringBody fuel r3).map (fun p => ('�' :: p.1, p.2))
              | _ =>
                (parseJStringBody fuel r3).map (fun p => ('�' :: p.1, p.2))
            else if 0xDC00 ≤ n ∧ n ≤ 0xDFFF then
              (parseJStringBody fuel r3).map (fun p => ('�' :: p.1, p.2))
            else
              (parseJStringBody fuel r3).map (fun p => (Char.ofNat n :: p.1, p.2))
        else none
    else if c.toNat < 0x20 then none
    else (parseJStringBody fuel rest).map (fun p => (c :: p.1, p.2))

mutual
/-- Model of the `json` scanner at a value position. -/
def parseVal : Nat → Str → Option (JVal × Str)
  | 0, _ => none
  | fuel + 1, s =>
    match s with
    | [] => none
    | c :: rest =>
      if c = '{' then parseObjBody fuel (skipWs rest)
      else if c = '[' then parseArrBody fuel (skipWs rest)
      else if c = '"' then
        (parseJStringBody fuel rest).map (fun p => (.jstr p.1, p.2))
      else if strStarts s "null".data then some (.jnull, s.drop 4)
      else if strStarts s "true".data then some (.jbool true, s.drop 4)
      else if strStarts s "false".data then some (.jbool false, s.drop 5)
      else parseNumberToken s
/-- Object body after the opening brace and whitespace. -/
def parseObjBody : Nat → Str → Option (JVal × Str)
  | 0, _ => none
  | fuel + 1, s =>
    match s with
    | '}' :: rest => some (.jobj .nil, rest)
    | _ => (parseMembers fuel s .nil).map (fun p => (.jobj p.1, p.2))
/-- Object members, accumulating with Python-dict duplicate handling. -/
def parseMembers : Nat → Str → JObj → Option (JObj × Str)
  | 0, _, _ => none
  | fuel + 1, s, acc =>
    match s with
    | '"' :: rest =>
      match parseJStringBody fuel rest with
      | none => none
      | some (key, r1) =>
        match skipWs r1 with
        | ':' :: r2 =>
          match parseVal fuel (skipWs r2) with
          | none => none
          | some (v, r3) =>
            match skipWs r3 with
            | ',' :: r4 => parseMembers fuel (skipWs r4) (jObjInsert key v acc)
            | '}' :: r4 => some (jObjInsert key v acc, r4)
            | _ => none
        | _ => none
    | _ => none
/-- Array body after the opening bracket and whitespace. -/
def parseArrBody : Nat → Str → Option (JVal × Str)
  | 0, _ => none
  | fuel + 1, s =>
    match s with
    | ']' :: rest => some (.jarr .nil, rest)
    | _ => (parseElems fuel s .nil).map (fun p => (.jarr p.1, p.2))
/-- Array elements. -/
def parseElems : Nat → Str → JArr → Option (JArr × Str)
  | 0, _, _ => none
  | fuel + 1, s, acc =>
    match parseVal fuel s with
    | none => none
    | some (v, r1) =>
      match skipWs r1 with
      | ',' :: r2 => parseElems fuel (skipWs r2) (jArrSnoc acc v)
      | ']' :: r2 => some (jArrSnoc acc v, r2)
      | _ => none
end

/-- Model of `json.loads`: a single value with only whitespace around it.
The fuel `2*|s|+4` dominates the recursion depth, which grows by at most
one per consumed character. -/
def jsonLoads (s : Str) : Option JVal :=
  match parseVal (2 * s.length + 4) (skipWs s) with
  | some (v, rest) => if skipWs rest = [] then some v else none
  | none => none

/-- Whether a modelled computation ended in an escaping exception. -/
def errored {α : Type} : Except Unit α → Bool
  | .error _ => true
  | .ok _ => false

/-! Record types populated by the extractor (host-runtime shapes; the
random call id is not modelled, see header). -/

/-- The `FunctionCall` record: pydantic requires `name` to be a string. -/
structure FunctionCall where
  name : Str
  arguments : Str
deriving DecidableEq

/-- The `ToolCall` record (always `type="function"`). -/
structure ToolCall where
  function : FunctionCall
deriving DecidableEq

/-- The `ExtractedToolCallInformation` record. -/
structure ExtractedToolCallInformation where
  tools_called : Bool
  tool_calls : List ToolCall
  content : Option Str
deriving DecidableEq

/-! Format detection (`_has_*_format`). -/

/-- Detector `_has_hermes_format`. -/
def hasHermesFormat (text : Str) : Bool := strContains text toolCallStartToken

/-- Detector `_has_tools_tag_format`. -/
def hasToolsTagFormat (text : Str) : Bool :=
  strContains text "<tools>".data && strContains text "name".data
    && strContains text "arguments".data

/-- Detector `_has_roo_xml_format`. -/
def hasRooXmlFormat (text : Str) : Bool :=
  ROO_TOOLS.any (fun t => strContains text (openTag t))

/-- The literal `<think>`. -/
def openThink : Str := "<think>".data

/-- The literal `</think>`. -/
def closeThink : Str := "</think>".data

/-- The literal `"name"`. -/
def quoteName : Str := "\"name\"".data

/-- The literal `"arguments"`. -/
def quoteArguments : Str := "\"arguments\"".data

/-- Worker for `thinkJsonBack`: tries each `</think>` occurrence in
order, as the backtracking lazy `.*?` does. -/
def thinkJsonBackAux : Nat → Str → Str → Option (Str × Str)
  | 0, _, _ => none
  | fuel + 1, acc, rem =>
    match pyFind rem closeThink with
    | none => none
    | some i =>
      let acc2 := acc ++ rem.take (i + closeThink.length)
      let after := rem.drop (i + closeThink.length)
      let j := after.dropWhile pyWsChar
      if j.head? = some '{' then some (acc2, j)
      else thinkJsonBackAux fuel acc2 after

/-- Backtracking semantics shared by the regexes
`^<think>.*?</think>\s*\x7b` (detection) and
`^(<think>.*?</think>)\s*(\x7b.*)` (streaming extraction): the lazy
group extends occurrence by occurrence of `</think>` until
whitespace-then-brace follows; returns the matched think block (tags
included) and the rest starting at the brace. -/
def thinkJsonBack (s : Str) : Option (Str × Str) :=
  if strStarts s openThink then
    thinkJsonBackAux (s.length + 1) openThink (s.drop openThink.length)
  else none

/-- Detector `_has_direct_json_format` (both cases work on the stripped
text). -/
def hasDirectJsonFormat (text : Str) : Bool :=
  let t := pyStrip text
  (strStarts t ['{'] && strContains t quoteName && strContains t quoteArguments)
    || ((thinkJsonBack t).isSome && strContains t quoteName
          && strContains t quoteArguments)

/-! Batch extractors. -/

/-- Build of `ToolCall(type="function", function=FunctionCall(name=fc["name"],
arguments=json.dumps(fc["arguments"], ensure_ascii=False)))`: a
`KeyError`/`TypeError` on the lookups, or pydantic's rejection of a
non-string `name`, surfaces as `.error`. -/
def buildToolCall (fc : JVal) : Except Unit ToolCall :=
  match pyIndex fc "name".data with
  | .error _ => .error ()
  | .ok nv =>
    match pyIndex fc "arguments".data with
    | .error _ => .error ()
    | .ok av =>
      match nv with
      | .jstr n => .ok ⟨⟨n, jsonDumps av⟩⟩
      | _ => .error ()

/-- Worker for `toolCallMatches`; the fuel bounds the iteration count,
each match consumes at least the sentinel lengths. -/
def toolCallMatchesF : Nat → Str → List Str
  | 0, _ => []
  | fuel + 1, s =>
    match pyFind s toolCallStartToken with
    | none => []
    | some i =>
      let after := s.drop (i + toolCallStartToken.length)
      match pyFind after toolCallEndToken with
      | none => [after]
      | some j =>
        after.take j :: toolCallMatchesF fuel (after.drop (j + toolCallEndToken.length))

/-- The strings fed to `json.loads` by
`tool_call_regex.findall`: the pattern
`<tool_call>(.*?)</tool_call>|<tool_call>(.*)` with DOTALL.  For a
closed match with empty interior the source's `match[0] if match[0]
else match[1]` falls through to the (empty) unmatched second group,
which is the same empty string. -/
def toolCallMatches (s : Str) : List Str := toolCallMatchesF (s.length + 1) s

/-- Sequential `ToolCall` construction; the first failure aborts the
whole loop (no inner handler around the constructions). -/
def buildToolCalls : List JVal → Except Unit (List ToolCall)
  | [] => .ok []
  | fc :: rest =>
    match buildToolCall fc with
    | .error _ => .error ()
    | .ok tc => (buildToolCalls rest).map (tc :: ·)

/-- Body of `_extract_hermes_tool_calls` inside its `try`: per-match
`json.loads` failures are skipped (inner handler), construction
failures escape to the outer handler (`.error`).  Note the body returns
`tools_called=True` even when every payload failed to parse. -/
def extractHermesCore (model_output : Str) : Except Unit ExtractedToolCallInformation :=
  let raw := (toolCallMatches model_output).filterMap jsonLoads
  match buildToolCalls raw with
  | .error _ => .error ()
  | .ok tool_calls =>
    let raw_content :=
      match pyFind model_output toolCallStartToken with
      | some i => if 0 < i then model_output.take i else []
      | none => []
    .ok ⟨true, tool_calls, clean_content_from_xml_tags raw_content "tool_call".data⟩

/-- `_extract_hermes_tool_calls` with its outer exception handler. -/
def extract_hermes_tool_calls (model_output : Str) : ExtractedToolCallInformation :=
  match extractHermesCore model_output with
  | .ok r => r
  | .error _ => ⟨false, [], some model_output⟩

/-- The literal `<tools>`. -/
def toolsTagStart : Str := "<tools>".data

/-- The literal `</tools>`. -/
def toolsTagEnd : Str := "</tools>".data

/-- Worker for `toolsMatches`. -/
def toolsMatchesF : Nat → Str → List Str
  | 0, _ => []
  | fuel + 1, s =>
    match pyFind s toolsTagStart with
    | none => []
    | some i =>
      let after := s.drop (i + toolsTagStart.length)
      match pyFind after toolsTagEnd with
      | none => [after]
      | some j =>
        after.take j :: toolsMatchesF fuel (after.drop (j + toolsTagEnd.length))

/-- Matches of `<tools>(.*?)</tools>|<tools>(.*)` via `findall`,
reduced to the payload string as for `toolCallMatches`. -/
def toolsMatches (s : Str) : List Str := toolsMatchesF (s.length + 1) s

/-- Loop of `_extract_tools_tag_format`: the inner handler catches only
`json.JSONDecodeError`, so a construction failure escapes (`.error`). -/
def toolsAccum : List Str → List ToolCall → Except Unit (List ToolCall)
  | [], acc => .ok acc
  | m :: rest, acc =>
    match jsonLoads (pyStrip m) with
    | none => toolsAccum rest acc
    | some fc =>
      match buildToolCall fc with
      | .error _ => .error ()
      | .ok tc => toolsAccum rest (acc ++ [tc])

/-- Body of `_extract_tools_tag_format` inside its `try`. -/
def extractToolsTagCore (model_output : Str) : Except Unit ExtractedToolCallInformation :=
  let ms := toolsMatches model_output
  if ms = [] then .ok ⟨false, [], some model_output⟩
  else
    match toolsAccum ms [] with
    | .error _ => .error ()
    | .ok tool_calls =>
      if tool_calls ≠ [] then
        let raw_content :=
          match pyFind model_output toolsTagStart with
          | some i => if 0 < i then model_output.take i else []
          | none => []
        .ok ⟨true, tool_calls, clean_content_from_xml_tags raw_content "tools".data⟩
      else .ok ⟨false, [], some model_output⟩

/-- `_extract_tools_tag_format` with its outer exception handler. -/
def extract_tools_tag_format (model_output : Str) : ExtractedToolCallInformation :=
  match extractToolsTagCore model_output with
  | .ok r => r
  | .error _ => ⟨false, [], some model_output⟩

/-- Anchored, first-occurrence match of `^(<think>.*?</think>)\s*` used
by the batch direct-JSON extractor.  Unlike the detector's pattern,
nothing after the group constrains it, so the lazy group never
backtracks past the first `</think>`. -/
def thinkSplitAnchored (s : Str) : Option (Str × Str) :=
  if strStarts s openThink then
    match pyFind (s.drop openThink.length) closeThink with
    | some i =>
      some (s.take (openThink.length + i + closeThink.length),
            s.drop (openThink.length + i + closeThink.length))
    | none => none
  else none

/-- The `json_part` of `_extract_direct_json`: everything after the
anchored think match, or the whole output. -/
def directJsonPart (model_output : Str) : Str :=
  match thinkSplitAnchored model_output with
  | some p => p.2
  | none => model_output

/-- The `thinking_content` of `_extract_direct_json`: the matched think
block, tags included. -/
def directThinking (model_output : Str) : Option Str :=
  (thinkSplitAnchored model_output).map (·.1)

/-- Body of `_extract_direct_json` inside its `try`: the think block (if
anchored-matched) is kept, tags included, as the content; `json.loads`
failure escapes to the handler; the membership tests follow Python `in`
semantics on the parsed value. -/
def extractDirectJsonCore (model_output : Str) : Except Unit ExtractedToolCallInformation :=
  let thinking_content : Option Str := directThinking model_output
  let json_part : Str := directJsonPart model_output
  match jsonLoads (pyStrip json_part) with
  | none => .error ()
  | some function_call =>
    match pyIn "name".data function_call with
    | .error _ => .error ()
    | .ok false => .ok ⟨false, [], some model_output⟩
    | .ok true =>
      match pyIn "arguments".data function_call with
      | .error _ => .error ()
      | .ok false => .ok ⟨false, [], some model_output⟩
      | .ok true =>
        match buildToolCall function_call with
        | .error _ => .error ()
        | .ok tc => .ok ⟨true, [tc], thinking_content⟩

/-- `_extract_direct_json` with its outer exception handler. -/
def extract_direct_json (model_output : Str) : ExtractedToolCallInformation :=
  match extractDirectJsonCore model_output with
  | .ok r => r
  | .error _ => ⟨false, [], some model_output⟩

/-- Model of the regex class `\w` (see header note on non-ASCII). -/
def wordChar (c : Char) : Bool := c.isAlphanum || c == '_'

/-- Worker for `paramMatches`: leftmost scan; at a `<` the greedy `\w+`
then `>` then the earliest `</name>` make a match, otherwise the engine
advances one character. -/
def paramMatchesF : Nat → Str → List (Str × Str)
  | 0, _ => []
  | _ + 1, [] => []
  | fuel + 1, c :: rest =>
    if c = '<' then
      match rest.span wordChar with
      | ([], _) => paramMatchesF fuel rest
      | (w, r1) =>
        match r1 with
        | '>' :: r2 =>
          match pyFind r2 (closeTag w) with
          | some j =>
            (w, pyStrip (r2.take j)) :: paramMatchesF fuel (r2.drop (j + (closeTag w).length))
          | none => paramMatchesF fuel rest
        | _ => paramMatchesF fuel rest
    else paramMatchesF fuel rest

/-- findall of the DOTALL pattern matching `<name>` then lazy content
then `</name>` with backreferenced name; the surrounding `\s*` pair in
the source pattern makes the captured value the whitespace-trimmed
interior, which this returns directly. -/
def paramMatches (s : Str) : List (Str × Str) := paramMatchesF (s.length + 1) s

/-- First vocabulary tool whose opening tag occurs in the text (the
`for tool_name in ROO_TOOLS` loop breaks after one tool). -/
def rooFirstOpenTool (s : Str) : Option Str :=
  ROO_TOOLS.find? (fun t => strContains s (openTag t))

/-- The span handed to the parameter regex: interior of the first
opening tag up to the first closing tag, or everything to the end when
the closing tag is missing (tolerated truncation).  A closing tag
located before the opening tag yields the empty span, as the Python
slice does. -/
def rooXmlContent (model_output : Str) (t : Str) : Str :=
  match pyFind model_output (openTag t) with
  | some start_idx =>
    let contentStart := start_idx + (openTag t).length
    match pyFind model_output (closeTag t) with
    | none => model_output.drop contentStart
    | some end_idx => (model_output.drop contentStart).take (end_idx - contentStart)
  | none => []

/-- Parameter value handling: strip, then a value that looks like JSON
(`\x7b` or `[` first) is opportunistically parsed, keeping the string on
parse failure. -/
def rooParamValue (v : Str) : JVal :=
  let v2 := pyStrip v
  if v2.head? = some '{' ∨ v2.head? = some '[' then
    match jsonLoads v2 with
    | some j => j
    | none => .jstr v2
  else .jstr v2

/-- `_extract_roo_xml_tool_calls`.  No modelled operation in the body
can raise, so the source's outer handler is unreachable and the
function is total as written. -/
def extract_roo_xml_tool_calls (model_output : Str) : ExtractedToolCallInformation :=
  match rooFirstOpenTool model_output with
  | none => ⟨false, [], some model_output⟩
  | some tool_name =>
    let xml_content := rooXmlContent model_output tool_name
    let arguments := (paramMatches xml_content).foldl
      (fun acc kv => jObjInsert kv.1 (rooParamValue kv.2) acc) .nil
    let tc : ToolCall := ⟨⟨tool_name, jsonDumps (.jobj arguments)⟩⟩
    let raw_content :=
      match pyFind model_output (openTag tool_name) with
      | some i => if 0 < i then model_output.take i else []
      | none => []
    ⟨true, [tc], clean_content_from_xml_tags raw_content tool_name⟩

/-- The outcome of the detection step of `extract_tool_calls`, in the
source's fixed priority order. -/
inductive DetectedFormat where
  | hermes
  | toolsTag
  | directJson
  | rooXml
  | plainContent
deriving DecidableEq

/-- Priority dispatch of `extract_tool_calls`: Hermes, then `<tools>`,
then direct JSON, then Roo XML, first match winning. -/
def detectFormat (model_output : Str) : DetectedFormat :=
  if hasHermesFormat model_output then .hermes
  else if hasToolsTagFormat model_output then .toolsTag
  else if hasDirectJsonFormat model_output then .directJson
  else if hasRooXmlFormat model_output then .rooXml
  else .plainContent

/-- Main non-streaming entry point `extract_tool_calls`. -/
def extract_tool_calls (model_output : Str) : ExtractedToolCallInformation :=
  if hasHermesFormat model_output then extract_hermes_tool_calls model_output
  else if hasToolsTagFormat model_output then extract_tools_tag_format model_output
  else if hasDirectJsonFormat model_output then extract_direct_json model_output
  else if hasRooXmlFormat model_output then extract_roo_xml_tool_calls model_output
  else ⟨false, [], some model_output⟩

/-! Streaming layer. -/

/-- The `DeltaFunctionCall` record. -/
structure DeltaFunctionCall where
  name : Str
  arguments : Str
deriving DecidableEq

/-- The `DeltaToolCall` record (the fresh random id is not modelled). -/
structure DeltaToolCall where
  index : Int
  function : DeltaFunctionCall
deriving DecidableEq

/-- The `DeltaMessage` record. -/
structure DeltaMessage where
  content : Option Str := none
  tool_calls : List DeltaToolCall := []
deriving DecidableEq

deriving instance DecidableEq for Except

/-- Per-stream mutable parser state (the `__init__` fields used by the
streaming path; `current_tool_name_sent` is written once and never
read, so it is omitted).  `prev_tool_call_arr` entries are the
`{"name": ..., "arguments": ...}` dicts, modelled as name/arguments
value pairs. -/
structure StreamState where
  prev_tool_call_arr : List (JVal × JVal)
  current_tool_id : Int
  streamed_args_for_tool : List Str
  buffered_delta_text : Str

/-- The freshly initialized per-stream state. -/
def initState : StreamState :=
  { prev_tool_call_arr := [], current_tool_id := -1,
    streamed_args_for_tool := [], buffered_delta_text := [] }

/-- Tokenizer-derived decoded fragments of the Hermes sentinels
(`tool_call_start_token_array` / `tool_call_end_token_array`).  They
come from the external tokenizer, so theorems quantify over them.  Real
tokenizers yield non-empty arrays; Python's `[-1]` on an empty array
would raise, which this model approximates with an empty-string default
last element. -/
structure StreamConfig where
  startTokArr : List Str
  endTokArr : List Str

/-- A single-token sentinel tokenizer (the Qwen tokenizer encodes each
sentinel as one special token), used to instantiate witnesses. -/
def defaultStreamConfig : StreamConfig :=
  ⟨[toolCallStartToken], [toolCallEndToken]⟩

/-- `tool_call_delta_buffer`: returns the delta text to use and the
state with the updated buffer. -/
def tool_call_delta_buffer (cfg : StreamConfig) (st : StreamState)
    (delta_text : Str) : Str × StreamState :=
  if delta_text ∈ cfg.startTokArr ∨ delta_text ∈ cfg.endTokArr then
    if delta_text = cfg.startTokArr.getLast?.getD []
        ∨ delta_text = cfg.endTokArr.getLast?.getD [] then
      (st.buffered_delta_text ++ delta_text, { st with buffered_delta_text := [] })
    else
      ([], { st with buffered_delta_text := st.buffered_delta_text ++ delta_text })
  else
    if st.buffered_delta_text ≠ [] then
      (st.buffered_delta_text ++ delta_text, { st with buffered_delta_text := [] })
    else (delta_text, st)

/-- The emission guard
`self.current_tool_id < 0 or len(self.prev_tool_call_arr) == 0`. -/
def emitGuard (st : StreamState) : Bool :=
  decide (st.current_tool_id < 0) || st.prev_tool_call_arr.isEmpty

/-- The streaming brace-balance scan: count braces, reporting
completeness only at a closing brace that returns the count to zero. -/
def braceComplete : Str → Int → Bool
  | [], _ => false
  | c :: rest, n =>
    if c = '{' then braceComplete rest (n + 1)
    else if c = '}' then
      if n - 1 = 0 then true else braceComplete rest (n - 1)
    else braceComplete rest n

/-- The character class of `<[a-zA-Z_]`'s second position. -/
def regexLetter (c : Char) : Bool :=
  ('a' ≤ c && c ≤ 'z') || ('A' ≤ c && c ≤ 'Z') || c == '_'

/-- `re.search(r'<[a-zA-Z_]', text)` as a Bool. -/
def ltLetterSearch : Str → Bool
  | '<' :: c :: rest => regexLetter c || ltLetterSearch (c :: rest)
  | _ :: rest => ltLetterSearch rest
  | [] => false

/-- The `ROO_TOOLS + ["tool_call", "tools"]` candidate list of the
partial-tag scan. -/
def partialTagTools : List Str := ROO_TOOLS ++ ["tool_call".data, "tools".data]

/-- One candidate test of `_is_accumulating_xml_tag`'s partial-tag scan:
mutual-prefix test against `</name` for a closing fragment, against
`<name` otherwise. -/
def partialTagHit (after_lt : Str) (t : Str) : Bool :=
  if strStarts after_lt "</".data then
    strStarts (closePart t) after_lt || strStarts after_lt (closePart t)
  else
    strStarts (openPart t) after_lt || strStarts after_lt (openPart t)

/-- The complete-but-unclosed scan at the end of
`_is_accumulating_xml_tag`. -/
def accumCompleteScan (text : Str) : Bool × Option Str :=
  match ROO_TOOLS.find?
      (fun t => strContains text (openTag t) && ! strContains text (closeTag t)) with
  | some t => (true, some t)
  | none =>
    if strContains text toolCallStartToken && ! strContains text toolCallEndToken then
      (true, some "tool_call".data)
    else if strContains text "<tools".data && ! strContains text toolsTagEnd then
      (true, some "tools".data)
    else (false, none)

/-- `_is_accumulating_xml_tag`. -/
def isAccumulatingXmlTag (text : Str) : Bool × Option Str :=
  if strEnds (pyStripR text) ['<'] then (true, none)
  else
    match pyRFind text '<' with
    | some last_lt =>
      let after_lt := text.drop last_lt
      if ! strContains after_lt ['>'] then
        match partialTagTools.find? (partialTagHit after_lt) with
        | some t => (true, some t)
        | none => accumCompleteScan text
      else accumCompleteScan text
    | none => accumCompleteScan text

/-- A streaming step's outcome: the returned value (or the escaping
exception) together with the post-call state. -/
abbrev StepResult := Except Unit (Option DeltaMessage) × StreamState

/-- Regex `search` of `<tools>(.*?)</tools>`: the payload of the first
complete envelope, if any. -/
def toolsSearchComplete (s : Str) : Option Str :=
  match pyFind s toolsTagStart with
  | none => none
  | some i =>
    let after := s.drop (i + toolsTagStart.length)
    match pyFind after toolsTagEnd with
    | none => none
    | some j => some (after.take j)

/-- `_streaming_extract_tools_format`.  Its handler catches only
`json.JSONDecodeError`: a missing `name` key (or a non-dict payload)
raises `KeyError`/`TypeError` after the id increment but before the
appends, and pydantic's rejection of a non-string name raises after all
three mutations; both escape the function (`.error`). -/
def streamingExtractToolsFormat (st : StreamState) (current_text : Str) : StepResult :=
  match toolsSearchComplete current_text with
  | none => (.ok none, st)
  | some interior =>
    match jsonLoads (pyStrip interior) with
    | none => (.ok none, st)
    | some function_call =>
      if emitGuard st then
        let st1 := { st with current_tool_id := st.current_tool_id + 1 }
        match pyIndex function_call "name".data with
        | .error _ => (.error (), st1)
        | .ok nameVal =>
          let argsVal := pyGetArguments function_call
          let st2 := { st1 with
            prev_tool_call_arr := st1.prev_tool_call_arr ++ [(nameVal, argsVal)] }
          let args_str := jsonDumps argsVal
          let st3 := { st2 with
            streamed_args_for_tool := st2.streamed_args_for_tool ++ [args_str] }
          match nameVal with
          | .jstr n =>
            (.ok (some ⟨none, [⟨st3.current_tool_id, ⟨n, args_str⟩⟩]⟩), st3)
          | _ => (.error (), st3)
      else (.ok none, st)

/-- The `args_dict` computation of `_streaming_extract_roo_xml`:
re-parse the serialized arguments unless they are the literal empty
object.  The re-parse cannot fail (the serialization came from
`json.dumps`), so the `.getD` default is unreachable. -/
def rooStreamArgsDict (tc : ToolCall) : JVal :=
  if tc.function.arguments ≠ ['{', '}'] then
    (jsonLoads tc.function.arguments).getD (JVal.jobj JObj.nil)
  else .jobj .nil

/-- Loop body of `_streaming_extract_roo_xml` over the vocabulary: the
first tool with both tags present decides the outcome, except that a
false emission guard lets the loop continue (and every later tool sees
the same false guard).  `args_dict` re-parses the serialized arguments,
which cannot fail (the `.getD` default is unreachable). -/
def streamingRooLoop (st : StreamState) (current_text : Str) : List Str → StepResult
  | [] => (.ok none, st)
  | t :: rest =>
    if strContains current_text (openTag t) && strContains current_text (closeTag t) then
      let xml_content := rooXmlContent current_text t
      if paramMatches xml_content = [] then (.ok none, st)
      else
        let result := extract_roo_xml_tool_calls current_text
        if ! result.tools_called || result.tool_calls.isEmpty then (.ok none, st)
        else
          match result.tool_calls with
          | [] => (.ok none, st)
          | tc :: _ =>
            let args_dict : JVal := rooStreamArgsDict tc
            if pyFalsy args_dict then (.ok none, st)
            else if emitGuard st then
              let st1 := { st with current_tool_id := st.current_tool_id + 1 }
              let st2 := { st1 with prev_tool_call_arr :=
                st1.prev_tool_call_arr ++ [(JVal.jstr tc.function.name, args_dict)] }
              let st3 := { st2 with streamed_args_for_tool :=
                st2.streamed_args_for_tool ++ [tc.function.arguments] }
              (.ok (some ⟨none,
                [⟨st3.current_tool_id, ⟨tc.function.name, tc.function.arguments⟩⟩]⟩), st3)
            else streamingRooLoop st current_text rest
    else streamingRooLoop st current_text rest

/-- `_streaming_extract_roo_xml`. -/
def streamingExtractRooXml (st : StreamState) (current_text : Str) : StepResult :=
  streamingRooLoop st current_text ROO_TOOLS

/-- The `previous_text`/`current_text` splice of
`_streaming_extract_hermes`, including Python's `[-0:]`/`[:-0]` slice
quirk: with an empty buffer the suffix test only passes for an empty
`previous_text`, and then rebuilds the current text from the buffered
delta alone. -/
def hermesAdjustedTexts (b previous_text current_text delta2 : Str) : Str × Str :=
  if b = [] then
    if previous_text = [] then ([], delta2)
    else (previous_text, current_text)
  else
    if b.length ≤ previous_text.length ∧ b <:+ previous_text then
      (previous_text.take (previous_text.length - b.length),
       previous_text.take (previous_text.length - b.length) ++ delta2)
    else (previous_text, current_text)

/-- `_streaming_extract_hermes`. -/
def streamingExtractHermes (cfg : StreamConfig) (st : StreamState)
    (previous_text current_text delta_text : Str) : StepResult :=
  let bd := tool_call_delta_buffer cfg st delta_text
  let delta2 := bd.1
  let st1 := bd.2
  let current2 :=
    (hermesAdjustedTexts st1.buffered_delta_text previous_text current_text delta2).2
  if ! strContains current2 toolCallEndToken then (.ok none, st1)
  else
    let result := extract_hermes_tool_calls current2
    if ! result.tools_called || result.tool_calls.isEmpty then (.ok none, st1)
    else
      match result.tool_calls with
      | [] => (.ok none, st1)
      | tc :: _ =>
        if emitGuard st1 then
          let args_dict := (jsonLoads tc.function.arguments).getD JVal.jnull
          let st2 := { st1 with current_tool_id := st1.current_tool_id + 1 }
          let st3 := { st2 with prev_tool_call_arr :=
            st2.prev_tool_call_arr ++ [(JVal.jstr tc.function.name, args_dict)] }
          let st4 := { st3 with streamed_args_for_tool :=
            st3.streamed_args_for_tool ++ [tc.function.arguments] }
          (.ok (some ⟨none,
            [⟨st4.current_tool_id, ⟨tc.function.name, tc.function.arguments⟩⟩]⟩), st4)
        else (.ok none, st1)

/-- `_streaming_extract_think_json`.  Raises inside are caught by the
broad handler and become `None` returns, but mutations made before a
late raise persist: a non-string `name` still performs all three
mutations before pydantic rejects it. -/
def streamingExtractThinkJson (st : StreamState) (current_text : Str) : StepResult :=
  match thinkJsonBack (pyStrip current_text) with
  | none => (.ok none, st)
  | some tj =>
    match jsonLoads tj.2 with
    | none => (.ok none, st)
    | some function_call =>
      match pyIn "name".data function_call with
      | .error _ => (.ok none, st)
      | .ok false => (.ok none, st)
      | .ok true =>
        match pyIndex function_call "name".data with
        | .error _ => (.ok none, st)
        | .ok nameVal =>
          let arguments := pyGetArguments function_call
          if emitGuard st then
            let args_str := jsonDumps arguments
            let st1 := { st with current_tool_id := st.current_tool_id + 1 }
            let st2 := { st1 with prev_tool_call_arr :=
              st1.prev_tool_call_arr ++ [(nameVal, arguments)] }
            let st3 := { st2 with streamed_args_for_tool :=
              st2.streamed_args_for_tool ++ [args_str] }
            match nameVal with
            | .jstr n =>
              (.ok (some ⟨some tj.1, [⟨st3.current_tool_id, ⟨n, args_str⟩⟩]⟩), st3)
            | _ => (.ok none, st3)
          else (.ok none, st)

/-- `_streaming_extract_direct_json`, same handler discipline as the
think variant. -/
def streamingExtractDirectJson (st : StreamState) (current_text : Str) : StepResult :=
  match jsonLoads (pyStrip current_text) with
  | none => (.ok none, st)
  | some function_call =>
    match pyIn "name".data function_call with
    | .error _ => (.ok none, st)
    | .ok false => (.ok none, st)
    | .ok true =>
      match pyIndex function_call "name".data with
      | .error _ => (.ok none, st)
      | .ok nameVal =>
        let arguments := pyGetArguments function_call
        if emitGuard st then
          let args_str := jsonDumps arguments
          let st1 := { st with current_tool_id := st.current_tool_id + 1 }
          let st2 := { st1 with prev_tool_call_arr :=
            st1.prev_tool_call_arr ++ [(nameVal, arguments)] }
          let st3 := { st2 with streamed_args_for_tool :=
            st2.streamed_args_for_tool ++ [args_str] }
          match nameVal with
          | .jstr n =>
            (.ok (some ⟨none, [⟨st3.current_tool_id, ⟨n, args_str⟩⟩]⟩), st3)
          | _ => (.ok none, st3)
        else (.ok none, st)

/-- Main streaming entry point `extract_tool_calls_streaming` (the token
id arguments are never read and are omitted). -/
def extract_tool_calls_streaming (cfg : StreamConfig) (st : StreamState)
    (previous_text current_text delta_text : Str) : StepResult :=
  let stripped := pyStrip current_text
  if strStarts stripped openThink then
    if strContains stripped closeThink then
      match thinkJsonBack stripped with
      | some tj =>
        if strContains tj.2 quoteName && strContains tj.2 quoteArguments then
          if braceComplete tj.2 0 then streamingExtractThinkJson st current_text
          else (.ok none, st)
        else (.ok none, st)
      | none => (.ok none, st)
    else (.ok none, st)
  else if strStarts stripped ['{'] then
    if strContains stripped quoteName then
      if braceComplete stripped 0 then streamingExtractDirectJson st current_text
      else (.ok none, st)
    else (.ok none, st)
  else if strContains current_text ['<'] then
    if hasRooXmlFormat current_text then streamingExtractRooXml st current_text
    else if hasHermesFormat current_text && strContains current_text toolCallEndToken then
      streamingExtractHermes cfg st previous_text current_text delta_text
    else if hasToolsTagFormat current_text && strContains current_text toolsTagEnd then
      streamingExtractToolsFormat st current_text
    else if (isAccumulatingXmlTag current_text).1 then (.ok none, st)
    else if ltLetterSearch current_text then (.ok none, st)
    else (.ok (some ⟨some delta_text, []⟩), st)
  else (.ok (some ⟨some delta_text, []⟩), st)

/-- Number of tool calls carried by one step outcome. -/
def emitCount (e : Except Unit (Option DeltaMessage)) : Nat :=
  match e with
  | .ok (some m) => m.tool_calls.length
  | _ => 0

/-- Fold a list of `(previous_text, current_text, delta_text)` calls on
one parser instance: total emitted calls, final state, and whether every
call returned without raising. -/
def runSteps (cfg : StreamConfig) : StreamState → List (Str × Str × Str) → Nat × StreamState × Bool
  | st, [] => (0, st, true)
  | st, x :: rest =>
    let r := extract_tool_calls_streaming cfg st x.1 x.2.1 x.2.2
    let next := runSteps cfg r.2 rest
    (emitCount r.1 + next.1, next.2.1, !errored r.1 && next.2.2)

/-- Coherent delta-sequence run: the cumulative text is built by
appending each delta to the accumulator; collects every outcome. -/
def runDeltas (cfg : StreamConfig) :
    StreamState → Str → List Str → List (Except Unit (Option DeltaMessage))
  | _, _, [] => []
  | st, acc, d :: rest =>
    let r := extract_tool_calls_streaming cfg st acc (acc ++ d) d
    r.1 :: runDeltas cfg r.2 (acc ++ d) rest

/-- Concatenation of the narration fragments of a list of outcomes. -/
def contentConcat (outs : List (Except Unit (Option DeltaMessage))) : Str :=
  outs.foldr
    (fun e acc =>
      match e with
      | .ok (some m) => m.content.getD [] ++ acc
      | _ => acc) []

/-- Total tool calls emitted over a list of outcomes. -/
def emitTotal (outs : List (Except Unit (Option DeltaMessage))) : Nat :=
  outs.foldr (fun e a => emitCount e + a) 0

/-- The cumulative-text condition under which a streaming step is the
pure-narration pass-through (the fall-through of the decision tree). -/
def pureNarrationText (current_text : Str) : Bool :=
  let stripped := pyStrip current_text
  !strStarts stripped openThink && !strStarts stripped ['{'] &&
    (!strContains current_text ['<'] ||
      (!hasRooXmlFormat current_text &&
       !(hasHermesFormat current_text && strContains current_text toolCallEndToken) &&
       !(hasToolsTagFormat current_text && strContains current_text toolsTagEnd) &&
       !(isAccumulatingXmlTag current_text).1 &&
       !ltLetterSearch current_text))

/-! Invariants used by the streaming theorems. -/

/-- The bookkeeping equalities of the streaming state:
`current_tool_id + 1 == len(prev_tool_call_arr) == len(streamed_args_for_tool)`. -/
def stateInv (st : StreamState) : Prop :=
  st.current_tool_id + 1 = (st.prev_tool_call_arr.length : Int) ∧
  st.prev_tool_call_arr.length = st.streamed_args_for_tool.length

/-- What a single streaming call can do to the state: leave the three
bookkeeping fields alone, perform the guarded emission transaction
(id+1 and one append to each list, with at most one call emitted), or
be interrupted by the `KeyError`/`TypeError` raise of the `<tools>`
path after the increment but before the appends. -/
def StepSpec (st : StreamState) (r : StepResult) : Prop :=
  (r.2.current_tool_id = st.current_tool_id ∧
   r.2.prev_tool_call_arr = st.prev_tool_call_arr ∧
   r.2.streamed_args_for_tool = st.streamed_args_for_tool ∧
   emitCount r.1 = 0) ∨
  (emitGuard st = true ∧
   r.2.current_tool_id = st.current_tool_id + 1 ∧
   st.prev_tool_call_arr <+: r.2.prev_tool_call_arr ∧
   r.2.prev_tool_call_arr.length = st.prev_tool_call_arr.length + 1 ∧
   st.streamed_args_for_tool <+: r.2.streamed_args_for_tool ∧
   r.2.streamed_args_for_tool.length = st.streamed_args_for_tool.length + 1 ∧
   emitCount r.1 ≤ 1) ∨
  (emitGuard st = true ∧
   r.2.current_tool_id = st.current_tool_id + 1 ∧
   r.2.prev_tool_call_arr = st.prev_tool_call_arr ∧
   r.2.streamed_args_for_tool = st.streamed_args_for_tool ∧
   errored r.1 = true ∧ emitCount r.1 = 0)

/-! Helper lemmas. -/

/-- A character of a contained substring is a character of the text. -/
theorem strContains_mem {s p : Str} {c : Char} (h : strContains s p = true)
    (hc : c ∈ p) : c ∈ s :=
  (of_decide_eq_true h).subset hc

/-- A character of a leading substring is a character of the text. -/
theorem strStarts_mem {s p : Str} {c : Char} (h : strStarts s p = true)
    (hc : c ∈ p) : c ∈ s :=
  (of_decide_eq_true h).subset hc

/-- Stripping only removes characters. -/
theorem pyStrip_mem {s : Str} {c : Char} (h : c ∈ pyStrip s) : c ∈ s := by
  unfold pyStrip at h
  rw [List.mem_reverse] at h
  have h2 := (List.dropWhile_sublist pyWsChar).subset h
  rw [List.mem_reverse] at h2
  exact (List.dropWhile_sublist pyWsChar).subset h2

/-- Dropping a failing head twice is dropping it once. -/
theorem dropWhile_idem (p : Char → Bool) (l : Str) :
    (l.dropWhile p).dropWhile p = l.dropWhile p := by
  induction l with
  | nil => rfl
  | cons c rest ih =>
    by_cases h : p c = true
    · simpa [List.dropWhile_cons, h] using ih
    · simp [List.dropWhile_cons, h]

/-- Stripping is idempotent. -/
theorem pyStrip_idem (s : Str) : pyStrip (pyStrip s) = pyStrip s := by
  unfold pyStrip
  set A := s.dropWhile pyWsChar with hA
  set u := (A.reverse.dropWhile pyWsChar).reverse with hu
  have husuf : A.reverse.dropWhile pyWsChar <:+ A.reverse := List.dropWhile_suffix _
  have hupre : u <+: A := by
    have := husuf.reverse
    rwa [List.reverse_reverse, ← hu] at this
  have hself : u.dropWhile pyWsChar = u := by
    cases hcu : u with
    | nil => rfl
    | cons c rest =>
      have hca : A.head? = some c := by
        rcases hupre with ⟨t, ht⟩
        rw [← ht, hcu, List.cons_append, List.head?_cons]
      have hdW : A.dropWhile pyWsChar = A := by rw [hA, dropWhile_idem]
      have hnc : pyWsChar c = false := by
        cases hAe : A with
        | nil => rw [hAe] at hca; simp at hca
        | cons a arest =>
          rw [hAe] at hca hdW
          simp only [List.head?_cons, Option.some.injEq] at hca
          rw [hca] at hdW
          by_cases hpc : pyWsChar c = true
          · rw [List.dropWhile_cons, hpc] at hdW
            simp only [if_true] at hdW
            have hlen := (List.dropWhile_sublist pyWsChar
              : (arest.dropWhile pyWsChar).Sublist arest).length_le
            rw [hdW] at hlen
            simp at hlen
          · exact Bool.eq_false_iff.mpr hpc
      simp [List.dropWhile_cons, hnc]
  have hrev : u.reverse = A.reverse.dropWhile pyWsChar := by
    rw [hu, List.reverse_reverse]
  rw [hself, hrev, dropWhile_idem, ← hrev, List.reverse_reverse]

/-- `replaceAllF` is the identity when the pattern does not occur. -/
theorem replaceAllF_noop (p : Str) :
    ∀ (fuel : Nat) (s : Str), ¬ (p <:+: s) → replaceAllF fuel s p = s := by
  intro fuel
  induction fuel with
  | zero => intro s _; rfl
  | succ n ih =>
    intro s h
    cases s with
    | nil => rfl
    | cons c rest =>
      have hnp : ¬ (p ≠ [] ∧ p <+: (c :: rest)) := by
        rintro ⟨-, hpre⟩
        exact h hpre.isInfix
      have hrest : ¬ (p <:+: rest) := fun hinf => h (List.infix_cons hinf)
      unfold replaceAllF
      rw [if_neg hnp, ih rest hrest]

/-- `replaceAll` is the identity when the pattern does not occur. -/
theorem replaceAll_noop {s p : Str} (h : ¬ (p <:+: s)) : replaceAll s p = s :=
  replaceAllF_noop p s.length s h

/-- Folding removals over patterns none of which occur is the identity. -/
theorem foldl_replaceAll_noop (pats : List Str) (x : Str)
    (h : ∀ p ∈ pats, ¬ (p <:+: x)) : pats.foldl replaceAll x = x := by
  induction pats with
  | nil => rfl
  | cons q rest ih =>
    rw [List.foldl_cons, replaceAll_noop (h q (List.mem_cons_self q rest))]
    exact ih fun p hp => h p (List.mem_cons_of_mem _ hp)

/-- A successful sanitizer output is non-empty and already stripped. -/
theorem clean_eq_some {s t out : Str}
    (h : clean_content_from_xml_tags s t = some out) :
    out ≠ [] ∧ pyStrip out = out := by
  unfold clean_content_from_xml_tags at h
  by_cases hs : s = []
  · simp [hs] at h
  · rw [if_neg hs] at h
    set cleaned := (cleanPatterns t).foldl replaceAll s with hc
    by_cases hstr : pyStrip cleaned = []
    · simp [hstr] at h
    · rw [if_neg hstr] at h
      simp only [Option.some.injEq] at h
      subst h
      exact ⟨hstr, pyStrip_idem cleaned⟩

/-- Texts without the two trigger characters satisfy no detector. -/
theorem detectors_false_of_chars {s : Str} (h1 : '<' ∉ s) (h2 : '{' ∉ s) :
    hasHermesFormat s = false ∧ hasToolsTagFormat s = false ∧
    hasDirectJsonFormat s = false ∧ hasRooXmlFormat s = false := by
  refine ⟨?_, ?_, ?_, ?_⟩
  · cases hh : hasHermesFormat s
    · rfl
    · exact absurd (strContains_mem hh (by decide)) h1
  · cases hh : hasToolsTagFormat s
    · rfl
    · simp only [hasToolsTagFormat, Bool.and_eq_true] at hh
      exact absurd (strContains_mem hh.1.1 (by decide)) h1
  · cases hh : hasDirectJsonFormat s
    · rfl
    · exfalso
      simp only [hasDirectJsonFormat, Bool.or_eq_true, Bool.and_eq_true] at hh
      rcases hh with ⟨⟨hstart, -⟩, -⟩ | ⟨⟨hsome, -⟩, -⟩
      · exact h2 (pyStrip_mem (strStarts_mem hstart (by decide)))
      · by_cases hb : strStarts (pyStrip s) openThink = true
        · exact h1 (pyStrip_mem (strStarts_mem hb (by decide)))
        · simp [thinkJsonBack, hb] at hsome
  · cases hh : hasRooXmlFormat s
    · rfl
    · simp only [hasRooXmlFormat, List.any_eq_true] at hh
      obtain ⟨t, -, hc⟩ := hh
      exact absurd (strContains_mem hc (by simp [openTag])) h1

/-- Claim C6: pure-narration identity.  For every input containing
neither `<` nor a left brace, `extract_tool_calls` reports no calls and
returns the input, character for character, as the content. -/
theorem roo_c6_pure_narration_identity (s : Str) (h1 : '<' ∉ s) (h2 : '{' ∉ s) :
    extract_tool_calls s = ⟨false, [], some s⟩ := by
  obtain ⟨d1, d2, d3, d4⟩ := detectors_false_of_chars h1 h2
  simp [extract_tool_calls, d1, d2, d3, d4]

/-- Witness for C6 at a concrete input. -/
theorem roo_c6_witness :
    extract_tool_calls "hello world".data = ⟨false, [], some "hello world".data⟩ :=
  roo_c6_pure_narration_identity "hello world".data (by decide) (by decide)

/-- Claim C3: detection priority.  A text containing both the Hermes
start sentinel and a vocabulary opening tag is dispatched to the Hermes
extractor, never the Roo XML one; and in general `extract_tool_calls`
dispatches by the fixed order Hermes, `<tools>`, direct JSON, Roo XML,
first match winning. -/
theorem roo_c3_detection_priority (s : Str) :
    (hasHermesFormat s = true → hasRooXmlFormat s = true →
      detectFormat s = .hermes ∧
      extract_tool_calls s = extract_hermes_tool_calls s) ∧
    extract_tool_calls s =
      (match detectFormat s with
       | .hermes => extract_hermes_tool_calls s
       | .toolsTag => extract_tools_tag_format s
       | .directJson => extract_direct_json s
       | .rooXml => extract_roo_xml_tool_calls s
       | .plainContent => ⟨false, [], some s⟩) := by
  constructor
  · intro hh _
    constructor
    · simp [detectFormat, hh]
    · simp [extract_tool_calls, hh]
  · by_cases h1 : hasHermesFormat s = true <;>
      by_cases h2 : hasToolsTagFormat s = true <;>
        by_cases h3 : hasDirectJsonFormat s = true <;>
          by_cases h4 : hasRooXmlFormat s = true <;>
            simp [extract_tool_calls, detectFormat, h1, h2, h3, h4]

/-- Witness for C3 at a concrete input with both signals present. -/
theorem roo_c3_witness :
    detectFormat "<tool_call><read_file>".data = .hermes ∧
    extract_tool_calls "<tool_call><read_file>".data =
      extract_hermes_tool_calls "<tool_call><read_file>".data :=
  (roo_c3_detection_priority "<tool_call><read_file>".data).1 (by decide) (by decide)

/-- Counterexample to claim C5 as stated: on Scenario 1's exact input
the extracted arguments string carries Python's default `": "`
separator (a space after the colon), not the claimed compact form. -/
theorem roo_c5_counterexample :
    (extract_tool_calls
      "Hello<tool_call>\n\x7b\"name\": \"read_file\", \"arguments\": \x7b\"path\": \"a.txt\"\x7d\x7d\n</tool_call>".data).tool_calls.map
        (fun tc => tc.function.arguments) = ["\x7b\"path\": \"a.txt\"\x7d".data] ∧
    "\x7b\"path\": \"a.txt\"\x7d".data ≠ "\x7b\"path\":\"a.txt\"\x7d".data := by
  constructor
  · decide
  · decide

/-- Claim C5 amended: Scenario 1 yields exactly one `read_file` call
whose arguments string is the default-separator serialization (with a
space after the colon), and narration `Hello`. -/
theorem roo_c5_amended_scenario1 :
    extract_tool_calls
      "Hello<tool_call>\n\x7b\"name\": \"read_file\", \"arguments\": \x7b\"path\": \"a.txt\"\x7d\x7d\n</tool_call>".data =
    ⟨true, [⟨⟨"read_file".data, "\x7b\"path\": \"a.txt\"\x7d".data⟩⟩],
      some "Hello".data⟩ := by
  decide

/-- Counterexample to claim C2 as stated: on `<tool_call></tool_call>`
the Hermes path parses no payload yet still reports
`tools_called=True` with an empty call list. -/
theorem roo_c2_counterexample :
    (extract_tool_calls "<tool_call></tool_call>".data).tools_called = true ∧
    (extract_tool_calls "<tool_call></tool_call>".data).tool_calls.length = 0 := by
  constructor
  · decide
  · decide

/-- Counterexample to claim C7 as stated: one sanitizer pass over
`</to</toolsols` splices the two halves into a fresh `</tools`
fragment, which a second pass then removes, so sanitizing twice is not
sanitizing once. -/
theorem roo_c7_counterexample :
    (clean_content_from_xml_tags "</to</toolsols".data "attempt_completion".data).bind
        (fun r => clean_content_from_xml_tags r "attempt_completion".data) ≠
      clean_content_from_xml_tags "</to</toolsols".data "attempt_completion".data := by
  decide

/-- Claim C7 amended: the sanitizer is idempotent on every input whose
sanitized output retains no occurrence of any removal pattern; the
counterexample shows a removal can splice adjacent text into a new
pattern occurrence, and only then does a second pass differ. -/
theorem roo_c7_amended_idempotence (s t : Str)
    (h : ∀ p ∈ cleanPatterns t,
      ¬ (p <:+: (clean_content_from_xml_tags s t).getD [])) :
    (clean_content_from_xml_tags s t).bind
        (fun r => clean_content_from_xml_tags r t) =
      clean_content_from_xml_tags s t := by
  cases hc : clean_content_from_xml_tags s t with
  | none => rfl
  | some out =>
    obtain ⟨hne, hstr⟩ := clean_eq_some hc
    have h2 : ∀ p ∈ cleanPatterns t, ¬ (p <:+: out) := by
      intro p hp
      have := h p hp
      rwa [hc, Option.getD_some] at this
    show clean_content_from_xml_tags out t = some out
    simp only [clean_content_from_xml_tags, if_neg hne,
      foldl_replaceAll_noop (cleanPatterns t) out h2, hstr]

/-- Witness for the amended C7 at a concrete already-clean narration. -/
theorem roo_c7_witness :
    (clean_content_from_xml_tags "Hello there".data "read_file".data).bind
        (fun r => clean_content_from_xml_tags r "read_file".data) =
      clean_content_from_xml_tags "Hello there".data "read_file".data :=
  roo_c7_amended_idempotence "Hello there".data "read_file".data (by decide)

/-- A successful `<tools>` core yields either real calls flagged true, or
the no-calls record carrying the full input. -/
theorem toolsCore_shape (s : Str) (r : ExtractedToolCallInformation)
    (hc : extractToolsTagCore s = .ok r) :
    (r.tools_called = true ∧ r.tool_calls ≠ []) ∨ r = ⟨false, [], some s⟩ := by
  simp only [extractToolsTagCore] at hc
  by_cases hm : toolsMatches s = []
  · rw [if_pos hm] at hc
    injection hc with h
    subst h
    right; rfl
  · rw [if_neg hm] at hc
    cases ha : toolsAccum (toolsMatches s) [] with
    | error e => rw [ha] at hc; cases hc
    | ok tcs =>
      rw [ha] at hc
      simp only at hc
      by_cases ht : tcs = []
      · rw [if_neg (not_not_intro ht)] at hc
        injection hc with h
        subst h
        right; rfl
      · rw [if_pos ht] at hc
        injection hc with h
        subst h
        left
        exact ⟨rfl, ht⟩

/-- Same shape for the wrapped `<tools>` extractor. -/
theorem tools_shape (s : Str) :
    ((extract_tools_tag_format s).tools_called = true ∧
      (extract_tools_tag_format s).tool_calls ≠ []) ∨
    extract_tools_tag_format s = ⟨false, [], some s⟩ := by
  unfold extract_tools_tag_format
  cases hc : extractToolsTagCore s with
  | error e => right; rfl
  | ok r =>
    simp only
    exact toolsCore_shape s r hc

/-- A successful direct-JSON core yields one call flagged true, or the
no-calls record carrying the full input. -/
theorem djsonCore_shape (s : Str) (r : ExtractedToolCallInformation)
    (hc : extractDirectJsonCore s = .ok r) :
    (r.tools_called = true ∧ r.tool_calls ≠ []) ∨ r = ⟨false, [], some s⟩ := by
  simp only [extractDirectJsonCore] at hc
  cases hl : jsonLoads (pyStrip (directJsonPart s)) with
  | none => rw [hl] at hc; cases hc
  | some fc =>
    rw [hl] at hc
    simp only at hc
    cases hn : pyIn "name".data fc with
    | error e => rw [hn] at hc; cases hc
    | ok bn =>
      rw [hn] at hc
      cases bn with
      | false =>
        simp only at hc
        injection hc with h
        subst h
        right; rfl
      | true =>
        simp only at hc
        cases hg : pyIn "arguments".data fc with
        | error e => rw [hg] at hc; cases hc
        | ok bg =>
          rw [hg] at hc
          cases bg with
          | false =>
            simp only at hc
            injection hc with h
            subst h
            right; rfl
          | true =>
            simp only at hc
            cases hb : buildToolCall fc with
            | error e => rw [hb] at hc; cases hc
            | ok tc =>
              rw [hb] at hc
              simp only at hc
              injection hc with h
              subst h
              left
              exact ⟨rfl, by simp⟩

/-- Same shape for the wrapped direct-JSON extractor. -/
theorem djson_shape (s : Str) :
    ((extract_direct_json s).tools_called = true ∧
      (extract_direct_json s).tool_calls ≠ []) ∨
    extract_direct_json s = ⟨false, [], some s⟩ := by
  unfold extract_direct_json
  cases hc : extractDirectJsonCore s with
  | error e => right; rfl
  | ok r =>
    simp only
    exact djsonCore_shape s r hc

/-- The Roo XML extractor yields one call flagged true, or the no-calls
record carrying the full input. -/
theorem rooXml_shape (s : Str) :
    ((extract_roo_xml_tool_calls s).tools_called = true ∧
      (extract_roo_xml_tool_calls s).tool_calls ≠ []) ∨
    extract_roo_xml_tool_calls s = ⟨false, [], some s⟩ := by
  unfold extract_roo_xml_tool_calls
  split
  · right; rfl
  · left
    exact ⟨rfl, by simp⟩

/-- A successful Hermes core always flags `tools_called`. -/
theorem hermesCore_called (s : Str) (r : ExtractedToolCallInformation)
    (hc : extractHermesCore s = .ok r) : r.tools_called = true := by
  simp only [extractHermesCore] at hc
  cases hb : buildToolCalls ((toolCallMatches s).filterMap jsonLoads) with
  | error e => rw [hb] at hc; cases hc
  | ok tcs =>
    rw [hb] at hc
    simp only at hc
    injection hc with h
    subst h
    rfl

/-- Off the Hermes path, every result is real-calls-flagged-true or the
full-input no-calls record. -/
theorem extract_shape (s : Str) (h1 : hasHermesFormat s = false) :
    ((extract_tool_calls s).tools_called = true ∧
      (extract_tool_calls s).tool_calls ≠ []) ∨
    extract_tool_calls s = ⟨false, [], some s⟩ := by
  unfold extract_tool_calls
  rw [h1]
  simp only [Bool.false_eq_true, if_false]
  by_cases h2 : hasToolsTagFormat s = true
  · simp only [h2, if_true]
    exact tools_shape s
  · simp only [h2, if_false]
    by_cases h3 : hasDirectJsonFormat s = true
    · simp only [h3, if_true]
      exact djson_shape s
    · simp only [h3, if_false]
      by_cases h4 : hasRooXmlFormat s = true
      · simp only [h4, if_true]
        exact rooXml_shape s
      · simp only [h4, if_false]
        right; rfl

/-- Claim C2 amended: a non-empty call list always comes flagged
`tools_called=true`, and off the Hermes path the invariant
`tools_called == (len(tool_calls) > 0)` holds as stated; the Hermes
path alone can flag `tools_called=true` with an empty list (when every
envelope payload fails to parse), as the counterexample shows. -/
theorem roo_c2_amended_invariant (s : Str) :
    ((extract_tool_calls s).tool_calls ≠ [] →
      (extract_tool_calls s).tools_called = true) ∧
    (hasHermesFormat s = false →
      ((extract_tool_calls s).tools_called = true ↔
        (extract_tool_calls s).tool_calls ≠ [])) := by
  by_cases h1 : hasHermesFormat s = true
  · constructor
    · intro hne
      have he : extract_tool_calls s = extract_hermes_tool_calls s := by
        simp [extract_tool_calls, h1]
      rw [he] at hne ⊢
      unfold extract_hermes_tool_calls at hne ⊢
      cases hc : extractHermesCore s with
      | error e => simp only [hc] at hne; simp at hne
      | ok r =>
        simp only [hc]
        exact hermesCore_called s r hc
    · intro h2
      rw [h2] at h1
      exact absurd h1 (by decide)
  · have h1f : hasHermesFormat s = false := Bool.eq_false_iff.mpr h1
    rcases extract_shape s h1f with ⟨ht, hn⟩ | heq
    · exact ⟨fun _ => ht, fun _ => ⟨fun _ => hn, fun _ => ht⟩⟩
    · rw [heq]
      constructor
      · intro hne; cases hne rfl
      · intro _
        constructor
        · intro hf; cases hf
        · intro hne; cases hne rfl

/-- Witness for the amended C2: a Roo XML span with a call, and a plain
text with none, both satisfy the invariant clauses. -/
theorem roo_c2_witness :
    (extract_tool_calls "<write_to_file><path>a</path></write_to_file>".data).tools_called
        = true ∧
    ((extract_tool_calls "just text".data).tools_called = true ↔
      (extract_tool_calls "just text".data).tool_calls ≠ []) :=
  ⟨(roo_c2_amended_invariant "<write_to_file><path>a</path></write_to_file>".data).1
      (by decide),
   (roo_c2_amended_invariant "just text".data).2 (by decide)⟩

/-- Claim C8: total, non-raising extraction with full-text fallback.
The modelled exception boundaries of the two cited extractors map every
escaping parse failure to `tools_called=false` with the verbatim
original input as content, and every no-calls result of
`extract_tool_calls` carries the verbatim original input as content. -/
theorem roo_c8_total_fallback (s : Str) :
    (errored (extractHermesCore s) = true →
      extract_hermes_tool_calls s = ⟨false, [], some s⟩) ∧
    (errored (extractDirectJsonCore s) = true →
      extract_direct_json s = ⟨false, [], some s⟩) ∧
    ((extract_tool_calls s).tools_called = false →
      (extract_tool_calls s).content = some s) := by
  refine ⟨?_, ?_, ?_⟩
  · intro he
    unfold extract_hermes_tool_calls
    cases hc : extractHermesCore s with
    | error e => rfl
    | ok r => rw [hc] at he; simp [errored] at he
  · intro he
    unfold extract_direct_json
    cases hc : extractDirectJsonCore s with
    | error e => rfl
    | ok r => rw [hc] at he; simp [errored] at he
  · by_cases h1 : hasHermesFormat s = true
    · have he : extract_tool_calls s = extract_hermes_tool_calls s := by
        simp [extract_tool_calls, h1]
      rw [he]
      intro hf
      unfold extract_hermes_tool_calls at hf ⊢
      cases hc : extractHermesCore s with
      | error e => simp [hc]
      | ok r =>
        rw [hc] at hf
        simp only at hf
        rw [hermesCore_called s r hc] at hf
        cases hf
    · have h1f : hasHermesFormat s = false := Bool.eq_false_iff.mpr h1
      rcases extract_shape s h1f with ⟨ht, -⟩ | heq
      · intro hf; rw [ht] at hf; cases hf
      · rw [heq]; intro _; rfl

/-- Witness for C8 at an input whose Hermes and direct-JSON cores both
raise internally. -/
theorem roo_c8_witness :
    extract_hermes_tool_calls "<tool_call>\x7b\"a\": 1\x7d</tool_call>".data =
      ⟨false, [], some "<tool_call>\x7b\"a\": 1\x7d</tool_call>".data⟩ ∧
    extract_direct_json "<tool_call>\x7b\"a\": 1\x7d</tool_call>".data =
      ⟨false, [], some "<tool_call>\x7b\"a\": 1\x7d</tool_call>".data⟩ ∧
    (extract_tool_calls "<tool_call>\x7b\"a\": 1\x7d</tool_call>".data).content =
      some "<tool_call>\x7b\"a\": 1\x7d</tool_call>".data :=
  ⟨(roo_c8_total_fallback "<tool_call>\x7b\"a\": 1\x7d</tool_call>".data).1 (by decide),
   (roo_c8_total_fallback "<tool_call>\x7b\"a\": 1\x7d</tool_call>".data).2.1 (by decide),
   (roo_c8_total_fallback "<tool_call>\x7b\"a\": 1\x7d</tool_call>".data).2.2 (by decide)⟩

/-- The delta buffer touches only `buffered_delta_text`. -/
theorem tcdb_triple (cfg : StreamConfig) (st : StreamState) (d : Str) :
    (tool_call_delta_buffer cfg st d).2.current_tool_id = st.current_tool_id ∧
    (tool_call_delta_buffer cfg st d).2.prev_tool_call_arr = st.prev_tool_call_arr ∧
    (tool_call_delta_buffer cfg st d).2.streamed_args_for_tool
      = st.streamed_args_for_tool := by
  unfold tool_call_delta_buffer
  split
  · split
    · exact ⟨rfl, rfl, rfl⟩
    · exact ⟨rfl, rfl, rfl⟩
  · split
    · exact ⟨rfl, rfl, rfl⟩
    · exact ⟨rfl, rfl, rfl⟩

/-- StepSpec for the `<tools>` streaming extractor. -/
theorem stepSpec_tools (st : StreamState) (c : Str) :
    StepSpec st (streamingExtractToolsFormat st c) := by
  simp only [streamingExtractToolsFormat]
  cases h1 : toolsSearchComplete c with
  | none => exact Or.inl ⟨rfl, rfl, rfl, rfl⟩
  | some interior =>
    simp only
    cases h2 : jsonLoads (pyStrip interior) with
    | none => exact Or.inl ⟨rfl, rfl, rfl, rfl⟩
    | some fc =>
      simp only
      by_cases hg : emitGuard st = true
      · rw [if_pos hg]
        cases h3 : pyIndex fc "name".data with
        | error e =>
          exact Or.inr (Or.inr ⟨hg, rfl, rfl, rfl, rfl, rfl⟩)
        | ok nv =>
          simp only
          cases nv <;>
            exact Or.inr (Or.inl ⟨hg, rfl, List.prefix_append _ _, by simp,
              List.prefix_append _ _, by simp, by simp [emitCount]⟩)
      · rw [if_neg hg]
        exact Or.inl ⟨rfl, rfl, rfl, rfl⟩

/-- StepSpec for the Roo XML streaming loop at any tool list. -/
theorem stepSpec_rooLoop (st : StreamState) (c : Str) (ts : List Str) :
    StepSpec st (streamingRooLoop st c ts) := by
  induction ts with
  | nil => exact Or.inl ⟨rfl, rfl, rfl, rfl⟩
  | cons t rest ih =>
    unfold streamingRooLoop
    by_cases h1 : (strContains c (openTag t) && strContains c (closeTag t)) = true
    · rw [if_pos h1]
      by_cases h2 : paramMatches (rooXmlContent c t) = []
      · rw [if_pos h2]
        exact Or.inl ⟨rfl, rfl, rfl, rfl⟩
      · rw [if_neg h2]
        by_cases h3 : (!(extract_roo_xml_tool_calls c).tools_called
            || (extract_roo_xml_tool_calls c).tool_calls.isEmpty) = true
        · rw [if_pos h3]
          exact Or.inl ⟨rfl, rfl, rfl, rfl⟩
        · rw [if_neg h3]
          cases hm : (extract_roo_xml_tool_calls c).tool_calls with
          | nil => exact Or.inl ⟨rfl, rfl, rfl, rfl⟩
          | cons tc rest2 =>
            simp only
            by_cases h4 : pyFalsy (rooStreamArgsDict tc) = true
            · rw [if_pos h4]
              exact Or.inl ⟨rfl, rfl, rfl, rfl⟩
            · rw [if_neg h4]
              by_cases hg : emitGuard st = true
              · rw [if_pos hg]
                exact Or.inr (Or.inl ⟨hg, rfl, List.prefix_append _ _, by simp,
                  List.prefix_append _ _, by simp, by simp [emitCount]⟩)
              · rw [if_neg hg]
                exact ih
    · rw [if_neg h1]
      exact ih

/-- StepSpec for the Roo XML streaming extractor. -/
theorem stepSpec_roo (st : StreamState) (c : Str) :
    StepSpec st (streamingExtractRooXml st c) :=
  stepSpec_rooLoop st c ROO_TOOLS

/-- StepSpec for the think-then-JSON streaming extractor. -/
theorem stepSpec_thinkJson (st : StreamState) (c : Str) :
    StepSpec st (streamingExtractThinkJson st c) := by
  simp only [streamingExtractThinkJson]
  cases h1 : thinkJsonBack (pyStrip c) with
  | none => exact Or.inl ⟨rfl, rfl, rfl, rfl⟩
  | some tj =>
    simp only
    cases h2 : jsonLoads tj.2 with
    | none => exact Or.inl ⟨rfl, rfl, rfl, rfl⟩
    | some fc =>
      simp only
      cases h3 : pyIn "name".data fc with
      | error e => exact Or.inl ⟨rfl, rfl, rfl, rfl⟩
      | ok bn =>
        cases bn with
        | false => exact Or.inl ⟨rfl, rfl, rfl, rfl⟩
        | true =>
          simp only
          cases h4 : pyIndex fc "name".data with
          | error e => exact Or.inl ⟨rfl, rfl, rfl, rfl⟩
          | ok nv =>
            simp only
            by_cases hg : emitGuard st = true
            · rw [if_pos hg]
              cases nv <;>
                exact Or.inr (Or.inl ⟨hg, rfl, List.prefix_append _ _, by simp,
                  List.prefix_append _ _, by simp, by simp [emitCount]⟩)
            · rw [if_neg hg]
              exact Or.inl ⟨rfl, rfl, rfl, rfl⟩

/-- StepSpec for the direct-JSON streaming extractor. -/
theorem stepSpec_directJson (st : StreamState) (c : Str) :
    StepSpec st (streamingExtractDirectJson st c) := by
  simp only [streamingExtractDirectJson]
  cases h2 : jsonLoads (pyStrip c) with
  | none => exact Or.inl ⟨rfl, rfl, rfl, rfl⟩
  | some fc =>
    simp only
    cases h3 : pyIn "name".data fc with
    | error e => exact Or.inl ⟨rfl, rfl, rfl, rfl⟩
    | ok bn =>
      cases bn with
      | false => exact Or.inl ⟨rfl, rfl, rfl, rfl⟩
      | true =>
        simp only
        cases h4 : pyIndex fc "name".data with
        | error e => exact Or.inl ⟨rfl, rfl, rfl, rfl⟩
        | ok nv =>
          simp only
          by_cases hg : emitGuard st = true
          · rw [if_pos hg]
            cases nv <;>
              exact Or.inr (Or.inl ⟨hg, rfl, List.prefix_append _ _, by simp,
                List.prefix_append _ _, by simp, by simp [emitCount]⟩)
          · rw [if_neg hg]
            exact Or.inl ⟨rfl, rfl, rfl, rfl⟩

/-- StepSpec for the Hermes streaming extractor: the sentinel buffer may
change, the three bookkeeping fields follow the guarded transaction. -/
theorem stepSpec_hermes (cfg : StreamConfig) (st : StreamState)
    (prev c d : Str) :
    StepSpec st (streamingExtractHermes cfg st prev c d) := by
  obtain ⟨e1, e2, e3⟩ := tcdb_triple cfg st d
  simp only [streamingExtractHermes]
  set st1 := (tool_call_delta_buffer cfg st d).2 with hst1
  split
  · exact Or.inl ⟨e1, e2, e3, rfl⟩
  · split
    · exact Or.inl ⟨e1, e2, e3, rfl⟩
    · split
      · exact Or.inl ⟨e1, e2, e3, rfl⟩
      · by_cases hg : emitGuard st1 = true
        · rw [if_pos hg]
          have hgs : emitGuard st = true := by
            rw [← hg]
            simp [emitGuard, e1, e2]
          refine Or.inr (Or.inl ⟨hgs, ?_, ?_, ?_, ?_, ?_, by simp [emitCount]⟩)
          · show st1.current_tool_id + 1 = st.current_tool_id + 1
            rw [e1]
          · show st.prev_tool_call_arr <+: st1.prev_tool_call_arr ++ _
            rw [e2]
            exact List.prefix_append _ _
          · show (st1.prev_tool_call_arr ++ _).length
              = st.prev_tool_call_arr.length + 1
            rw [e2]
            simp
          · show st.streamed_args_for_tool <+: st1.streamed_args_for_tool ++ _
            rw [e3]
            exact List.prefix_append _ _
          · show (st1.streamed_args_for_tool ++ _).length
              = st.streamed_args_for_tool.length + 1
            rw [e3]
            simp
        · rw [if_neg hg]
          exact Or.inl ⟨e1, e2, e3, rfl⟩

/-- StepSpec for one full streaming call. -/
theorem stepSpec_step (cfg : StreamConfig) (st : StreamState)
    (prev c d : Str) :
    StepSpec st (extract_tool_calls_streaming cfg st prev c d) := by
  simp only [extract_tool_calls_streaming]
  split
  · split
    · split
      · split
        · split
          · exact stepSpec_thinkJson st c
          · exact Or.inl ⟨rfl, rfl, rfl, rfl⟩
        · exact Or.inl ⟨rfl, rfl, rfl, rfl⟩
      · exact Or.inl ⟨rfl, rfl, rfl, rfl⟩
    · exact Or.inl ⟨rfl, rfl, rfl, rfl⟩
  · split
    · split
      · split
        · exact stepSpec_directJson st c
        · exact Or.inl ⟨rfl, rfl, rfl, rfl⟩
      · exact Or.inl ⟨rfl, rfl, rfl, rfl⟩
    · split
      · split
        · exact stepSpec_roo st c
        · split
          · exact stepSpec_hermes cfg st prev c d
          · split
            · exact stepSpec_tools st c
            · split
              · exact Or.inl ⟨rfl, rfl, rfl, rfl⟩
              · split
                · exact Or.inl ⟨rfl, rfl, rfl, rfl⟩
                · exact Or.inl ⟨rfl, rfl, rfl, rfl⟩
      · exact Or.inl ⟨rfl, rfl, rfl, rfl⟩

/-- The emission guard reads only the id and the call array. -/
theorem emitGuard_congr {a b : StreamState}
    (h1 : a.current_tool_id = b.current_tool_id)
    (h2 : a.prev_tool_call_arr = b.prev_tool_call_arr) :
    emitGuard a = emitGuard b := by
  simp [emitGuard, h1, h2]

/-- Run-level counting: from any state with id at least `-1`, a run
emits at most one call, and none at all once the guard is off. -/
theorem runSteps_count (cfg : StreamConfig) (steps : List (Str × Str × Str)) :
    ∀ st : StreamState, -1 ≤ st.current_tool_id →
      (runSteps cfg st steps).1 ≤ 1 ∧
      (emitGuard st = false → (runSteps cfg st steps).1 = 0) := by
  induction steps with
  | nil =>
    intro st _
    exact ⟨by simp [runSteps], fun _ => rfl⟩
  | cons x rest ih =>
    intro st hid
    have hs := stepSpec_step cfg st x.1 x.2.1 x.2.2
    set r := extract_tool_calls_streaming cfg st x.1 x.2.1 x.2.2 with hr
    rcases hs with ⟨q1, q2, q3, q0⟩ | ⟨hg, q1, q2, q3, q4, q5, qe⟩ |
      ⟨hg, q1, q2, q3, qe, q0⟩
    · have hgr : emitGuard r.2 = emitGuard st := emitGuard_congr q1 q2
      have hid2 : -1 ≤ r.2.current_tool_id := by rw [q1]; exact hid
      obtain ⟨ih1, ih2⟩ := ih r.2 hid2
      constructor
      · show emitCount r.1 + (runSteps cfg r.2 rest).1 ≤ 1
        rw [q0]
        simpa using ih1
      · intro hgf
        show emitCount r.1 + (runSteps cfg r.2 rest).1 = 0
        rw [q0, ih2 (by rw [hgr]; exact hgf)]
    · have hid2 : -1 ≤ r.2.current_tool_id := by rw [q1]; omega
      obtain ⟨ih1, ih2⟩ := ih r.2 hid2
      constructor
      · show emitCount r.1 + (runSteps cfg r.2 rest).1 ≤ 1
        rcases Nat.lt_or_ge (emitCount r.1) 1 with h | h
        · have h0 : emitCount r.1 = 0 := by omega
          rw [h0]
          simpa using ih1
        · have h1 : emitCount r.1 = 1 := by omega
          have hgf : emitGuard r.2 = false := by
            have hidpos : ¬ (r.2.current_tool_id < 0) := by rw [q1]; omega
            have hne : r.2.prev_tool_call_arr ≠ [] := by
              intro hnil
              rw [hnil] at q3
              simp at q3
            simp [emitGuard, hidpos, List.isEmpty_iff, hne]
          rw [h1, ih2 hgf]
      · intro hgf
        rw [hgf] at hg
        cases hg
    · have hid2 : -1 ≤ r.2.current_tool_id := by rw [q1]; omega
      obtain ⟨ih1, ih2⟩ := ih r.2 hid2
      constructor
      · show emitCount r.1 + (runSteps cfg r.2 rest).1 ≤ 1
        rw [q0]
        simpa using ih1
      · intro hgf
        rw [hgf] at hg
        cases hg

/-- Run-level bookkeeping: the invariant survives every run in which no
call raised. -/
theorem runSteps_inv (cfg : StreamConfig) (steps : List (Str × Str × Str)) :
    ∀ st : StreamState, stateInv st → (runSteps cfg st steps).2.2 = true →
      stateInv (runSteps cfg st steps).2.1 := by
  induction steps with
  | nil => intro st hi _; exact hi
  | cons x rest ih =>
    intro st hi herr
    have hs := stepSpec_step cfg st x.1 x.2.1 x.2.2
    set r := extract_tool_calls_streaming cfg st x.1 x.2.1 x.2.2 with hr
    have herr2 : (!errored r.1 && (runSteps cfg r.2 rest).2.2) = true := herr
    rw [Bool.and_eq_true] at herr2
    obtain ⟨he, hrest⟩ := herr2
    have hinv2 : stateInv r.2 := by
      rcases hs with ⟨q1, q2, q3, -⟩ | ⟨-, q1, -, q3, -, q5, -⟩ | ⟨-, -, -, -, qe, -⟩
      · exact ⟨by rw [q1, q2]; exact hi.1, by rw [q2, q3]; exact hi.2⟩
      · constructor
        · rw [q1, q3]
          have h1 := hi.1
          push_cast
          push_cast at h1
          omega
        · rw [q3, q5, hi.2]
      · rw [qe] at he
        cases he
    exact ih r.2 hinv2 hrest

/-- Claim C1: exactly-once emission.  From the freshly initialized
state, any sequence of streaming calls emits at most one tool call in
total (re-feeding the same completed text therefore emits nothing new),
and a single call can emit only while the per-stream guard still shows
nothing emitted. -/
theorem roo_c1_exactly_once (cfg : StreamConfig)
    (steps : List (Str × Str × Str)) (st : StreamState) (p c d : Str) :
    (runSteps cfg initState steps).1 ≤ 1 ∧
    (1 ≤ emitCount (extract_tool_calls_streaming cfg st p c d).1 →
      emitGuard st = true) := by
  constructor
  · exact (runSteps_count cfg steps initState (by simp [initState])).1
  · intro he
    rcases stepSpec_step cfg st p c d with ⟨-, -, -, q0⟩ | ⟨hg, -⟩ | ⟨hg, -⟩
    · rw [q0] at he
      exact absurd he (by omega)
    · exact hg
    · exact hg

/-- Witness for C1: a concrete single-step run that does emit. -/
theorem roo_c1_witness : emitGuard initState = true :=
  (roo_c1_exactly_once defaultStreamConfig [] initState []
    "\x7b\"name\": \"x\", \"arguments\": \x7b\x7d\x7d".data []).2 (by decide)

/-- Counterexample to claim C10 as stated: a `<tools>` payload without a
`name` key raises `KeyError` after the id increment but before the
appends, so after that call `current_tool_id + 1` is `1` while both
lists are still empty. -/
theorem roo_c10_counterexample :
    ¬ ((runSteps defaultStreamConfig initState
        [([], "name arguments<tools>\x7b\"a\": 1\x7d</tools>".data,
          "name arguments<tools>\x7b\"a\": 1\x7d</tools>".data)]).2.1.current_tool_id + 1 =
       ((runSteps defaultStreamConfig initState
        [([], "name arguments<tools>\x7b\"a\": 1\x7d</tools>".data,
          "name arguments<tools>\x7b\"a\": 1\x7d</tools>".data)]).2.1.prev_tool_call_arr.length
          : Int)) := by
  decide

/-- Claim C10 amended: starting from the initial state the equalities
`current_tool_id + 1 == len(prev_tool_call_arr) ==
len(streamed_args_for_tool)` hold after every call of any run in which
no call raised an exception (the `<tools>` `KeyError` path of the
counterexample is the only violation); both arrays are append-only on
every call; and every normally-returning call either leaves all three
fields unchanged or increments the id exactly once while appending
exactly one element to each array. -/
theorem roo_c10_amended_bookkeeping (cfg : StreamConfig)
    (steps : List (Str × Str × Str)) (st : StreamState) (p c d : Str) :
    ((runSteps cfg initState steps).2.2 = true →
      stateInv (runSteps cfg initState steps).2.1) ∧
    st.prev_tool_call_arr <+:
      (extract_tool_calls_streaming cfg st p c d).2.prev_tool_call_arr ∧
    st.streamed_args_for_tool <+:
      (extract_tool_calls_streaming cfg st p c d).2.streamed_args_for_tool ∧
    (errored (extract_tool_calls_streaming cfg st p c d).1 = false →
      (((extract_tool_calls_streaming cfg st p c d).2.current_tool_id
          = st.current_tool_id ∧
        (extract_tool_calls_streaming cfg st p c d).2.prev_tool_call_arr
          = st.prev_tool_call_arr ∧
        (extract_tool_calls_streaming cfg st p c d).2.streamed_args_for_tool
          = st.streamed_args_for_tool) ∨
       ((extract_tool_calls_streaming cfg st p c d).2.current_tool_id
          = st.current_tool_id + 1 ∧
        (extract_tool_calls_streaming cfg st p c d).2.prev_tool_call_arr.length
          = st.prev_tool_call_arr.length + 1 ∧
        (extract_tool_calls_streaming cfg st p c d).2.streamed_args_for_tool.length
          = st.streamed_args_for_tool.length + 1))) := by
  refine ⟨?_, ?_, ?_, ?_⟩
  · exact runSteps_inv cfg steps initState ⟨by simp [initState], by simp [initState]⟩
  · rcases stepSpec_step cfg st p c d with ⟨-, q2, -, -⟩ | ⟨-, -, q2, -, -, -, -⟩ |
      ⟨-, -, q2, -, -, -⟩
    · rw [q2]
    · exact q2
    · rw [q2]
  · rcases stepSpec_step cfg st p c d with ⟨-, -, q3, -⟩ | ⟨-, -, -, -, q4, -, -⟩ |
      ⟨-, -, -, q3, -, -⟩
    · rw [q3]
    · exact q4
    · rw [q3]
  · intro he
    rcases stepSpec_step cfg st p c d with ⟨q1, q2, q3, -⟩ | ⟨-, q1, -, q3, -, q5, -⟩ |
      ⟨-, -, -, -, qe, -⟩
    · exact Or.inl ⟨q1, q2, q3⟩
    · exact Or.inr ⟨q1, q3, q5⟩
    · rw [qe] at he
      cases he

/-- Witness for the amended C10: a run and a call that both emit. -/
theorem roo_c10_witness :
    stateInv (runSteps defaultStreamConfig initState
      [([], "\x7b\"name\": \"x\", \"arguments\": \x7b\x7d\x7d".data,
        "\x7b\"name\": \"x\", \"arguments\": \x7b\x7d\x7d".data)]).2.1 ∧
    (((extract_tool_calls_streaming defaultStreamConfig initState []
        "\x7b\"name\": \"x\", \"arguments\": \x7b\x7d\x7d".data []).2.current_tool_id
        = initState.current_tool_id ∧
      (extract_tool_calls_streaming defaultStreamConfig initState []
        "\x7b\"name\": \"x\", \"arguments\": \x7b\x7d\x7d".data []).2.prev_tool_call_arr
        = initState.prev_tool_call_arr ∧
      (extract_tool_calls_streaming defaultStreamConfig initState []
        "\x7b\"name\": \"x\", \"arguments\": \x7b\x7d\x7d".data []).2.streamed_args_for_tool
        = initState.streamed_args_for_tool) ∨
     ((extract_tool_calls_streaming defaultStreamConfig initState []
        "\x7b\"name\": \"x\", \"arguments\": \x7b\x7d\x7d".data []).2.current_tool_id
        = initState.current_tool_id + 1 ∧
      (extract_tool_calls_streaming defaultStreamConfig initState []
        "\x7b\"name\": \"x\", \"arguments\": \x7b\x7d\x7d".data []).2.prev_tool_call_arr.length
        = initState.prev_tool_call_arr.length + 1 ∧
      (extract_tool_calls_streaming defaultStreamConfig initState []
        "\x7b\"name\": \"x\", \"arguments\": \x7b\x7d\x7d".data []).2.streamed_args_for_tool.length
        = initState.streamed_args_for_tool.length + 1)) :=
  ⟨(roo_c10_amended_bookkeeping defaultStreamConfig
      [([], "\x7b\"name\": \"x\", \"arguments\": \x7b\x7d\x7d".data,
        "\x7b\"name\": \"x\", \"arguments\": \x7b\x7d\x7d".data)] initState [] [] []).1
      (by decide),
   (roo_c10_amended_bookkeeping defaultStreamConfig [] initState []
      "\x7b\"name\": \"x\", \"arguments\": \x7b\x7d\x7d".data []).2.2.2 (by decide)⟩

/-- A step whose cumulative text satisfies the pure-narration condition
passes the delta through unchanged and leaves the state alone. -/
theorem pureNarr_step (cfg : StreamConfig) (st : StreamState) (p c d : Str)
    (h : pureNarrationText c = true) :
    extract_tool_calls_streaming cfg st p c d = (.ok (some ⟨some d, []⟩), st) := by
  simp only [pureNarrationText, Bool.and_eq_true, Bool.or_eq_true,
    Bool.not_eq_true'] at h
  obtain ⟨⟨h1, h2⟩, h3⟩ := h
  rcases h3 with h3 | ⟨⟨⟨⟨h4, h5⟩, h6⟩, h7⟩, h8⟩
  · simp [extract_tool_calls_streaming, h1, h2, h3]
  · simp [extract_tool_calls_streaming, h1, h2, h4, h5, h6, h7, h8]

/-- Pure-narration runs concatenate every delta back verbatim. -/
theorem runDeltas_narr (cfg : StreamConfig) (ds : List Str) :
    ∀ (st : StreamState) (acc : Str),
      (∀ n < ds.length,
        pureNarrationText (acc ++ (ds.take (n + 1)).flatten) = true) →
      contentConcat (runDeltas cfg st acc ds) = ds.flatten := by
  induction ds with
  | nil => intro st acc _; rfl
  | cons x rest ih =>
    intro st acc h
    have h0 : pureNarrationText (acc ++ x) = true := by
      have hx := h 0 (by simp)
      simpa using hx
    have hstep := pureNarr_step cfg st acc (acc ++ x) x h0
    show contentConcat
        ((extract_tool_calls_streaming cfg st acc (acc ++ x) x).1 ::
          runDeltas cfg (extract_tool_calls_streaming cfg st acc (acc ++ x) x).2
            (acc ++ x) rest) = (x :: rest).flatten
    rw [hstep]
    have hrest : contentConcat (runDeltas cfg st (acc ++ x) rest) = rest.flatten := by
      apply ih
      intro n hn
      have hx := h (n + 1) (by simpa using Nat.succ_lt_succ hn)
      simpa [List.append_assoc] using hx
    simp [contentConcat] at hrest ⊢
    simp [hrest]

/-- Claim C4: streaming narration monotonicity.  Over any delta sequence
whose every cumulative prefix is pure narration, concatenating the
content of all returned messages reproduces the full final text, with
nothing lost and nothing duplicated. -/
theorem roo_c4_narration_monotonicity (cfg : StreamConfig) (ds : List Str)
    (h : ∀ n < ds.length, pureNarrationText ((ds.take (n + 1)).flatten) = true) :
    contentConcat (runDeltas cfg initState [] ds) = ds.flatten := by
  apply runDeltas_narr
  intro n hn
  simpa using h n hn

/-- Witness for C4 on a concrete two-delta narration stream. -/
theorem roo_c4_witness :
    contentConcat (runDeltas defaultStreamConfig initState []
      ["Hello ".data, "world".data]) =
      (["Hello ".data, "world".data] : List Str).flatten :=
  roo_c4_narration_monotonicity defaultStreamConfig
    ["Hello ".data, "world".data] (by decide)

/-- Stripping fixes a string with non-whitespace first and last
characters. -/
theorem pyStrip_edge (a b : Char) (y : Str) (ha : pyWsChar a = false)
    (hb : pyWsChar b = false) : pyStrip (a :: (y ++ [b])) = a :: (y ++ [b]) := by
  simp [pyStrip, ha, hb, List.dropWhile_cons]

/-- No vocabulary name starts with `t`, so no text opening with a
vocabulary tag can start with the think opener. -/
theorem not_think_of_tool {t : Str} (ht : t ∈ ROO_TOOLS) (R : Str) :
    ¬ (openThink <+: ('<' :: (t ++ R))) := by
  intro hp
  have hop : openThink = '<' :: "think>".data := rfl
  rw [hop] at hp
  have h2 := (List.cons_prefix_cons.mp hp).2
  unfold ROO_TOOLS at ht
  fin_cases ht <;> exact absurd (List.cons_prefix_cons.mp h2).1 (by decide)

/-- The streaming Roo loop suppresses whenever the first tool whose
opening tag occurs also has its closing tag present but no complete
inner parameter. -/
theorem rooLoop_suppresses (st : StreamState) (c t : Str) :
    ∀ ts : List Str,
      ts.find? (fun u => strContains c (openTag u)) = some t →
      strContains c (closeTag t) = true →
      paramMatches (rooXmlContent c t) = [] →
      streamingRooLoop st c ts = (.ok none, st) := by
  intro ts
  induction ts with
  | nil => intro hf _ _; cases hf
  | cons u rest ih =>
    intro hf hcl hpm
    by_cases ho : strContains c (openTag u) = true
    · have hut : u = t := by
        simp only [List.find?] at hf
        rw [ho] at hf
        simpa using hf
      subst hut
      simp only [streamingRooLoop]
      rw [if_pos (by simp [ho, hcl] : (strContains c (openTag u)
        && strContains c (closeTag u)) = true)]
      rw [if_pos hpm]
    · have hof : strContains c (openTag u) = false := Bool.eq_false_iff.mpr ho
      have hf2 : rest.find? (fun v => strContains c (openTag v)) = some t := by
        simp only [List.find?] at hf
        rwa [hof] at hf
      simp only [streamingRooLoop]
      rw [if_neg (by simp [hof])]
      exact ih hf2 hcl hpm

/-- Claim C9: batch/streaming divergence on parameter-less tag-per-call
spans.  For any span that is exactly a complete vocabulary tag pair,
detected as Roo XML with that tool first found and no complete inner
parameter tag, the batch extractor returns one call with arguments
exactly the empty JSON object, while the streaming extractor on the
same cumulative text returns `None` from every state; concretely, the
full character-by-character stream of the example span emits no call at
any step. -/
theorem roo_c9_batch_streaming_divergence (s t mid : Str)
    (cfg : StreamConfig) (st : StreamState) (p d : Str)
    (hs : s = openTag t ++ mid ++ closeTag t)
    (hdet : detectFormat s = .rooXml)
    (hfirst : rooFirstOpenTool s = some t)
    (hparams : paramMatches (rooXmlContent s t) = []) :
    (extract_tool_calls s).tools_called = true ∧
    (extract_tool_calls s).tool_calls.map (fun tc => tc.function.arguments)
      = [['{', '}']] ∧
    (extract_tool_calls_streaming cfg st p s d).1 = .ok none ∧
    emitTotal (runDeltas defaultStreamConfig initState []
      ("<attempt_completion></attempt_completion>".data.map (fun ch => [ch]))) = 0 := by
  have hfind : ROO_TOOLS.find? (fun u => strContains s (openTag u)) = some t := hfirst
  have ht : t ∈ ROO_TOOLS := List.mem_of_find?_eq_some hfind
  have hfmt := hdet
  unfold detectFormat at hfmt
  by_cases h1 : hasHermesFormat s = true
  · rw [if_pos h1] at hfmt; cases hfmt
  rw [if_neg h1] at hfmt
  by_cases h2 : hasToolsTagFormat s = true
  · rw [if_pos h2] at hfmt; cases hfmt
  rw [if_neg h2] at hfmt
  by_cases h3 : hasDirectJsonFormat s = true
  · rw [if_pos h3] at hfmt; cases hfmt
  rw [if_neg h3] at hfmt
  by_cases h4 : hasRooXmlFormat s = true
  case neg => rw [if_neg h4] at hfmt; cases hfmt
  have hcons : s = '<' :: (t ++ ('>' :: (mid ++ closeTag t))) := by
    rw [hs]
    simp [openTag, List.append_assoc]
  have hpss : pyStrip s = s := by
    have hshape : s = '<' :: ((t ++ ('>' :: mid) ++ ('<' :: '/' :: t)) ++ ['>']) := by
      rw [hs]
      simp [openTag, closeTag, List.append_assoc]
    rw [hshape]
    exact pyStrip_edge '<' '>' _ (by decide) (by decide)
  have hthinkB : strStarts s openThink = false := by
    apply decide_eq_false
    rw [hcons]
    exact not_think_of_tool ht _
  have hbrace : strStarts s ['{'] = false := by
    apply decide_eq_false
    rw [hcons]
    intro hp
    exact absurd (List.cons_prefix_cons.mp hp).1 (by decide)
  have hlt : strContains s ['<'] = true := by
    rw [hcons]
    exact decide_eq_true ⟨[], _, rfl⟩
  have hclose : strContains s (closeTag t) = true := by
    rw [hs]
    exact decide_eq_true (List.suffix_append _ _).isInfix
  have hroo9 := rooLoop_suppresses st s t ROO_TOOLS hfind hclose hparams
  have hbatch : extract_tool_calls s = extract_roo_xml_tool_calls s := by
    simp [extract_tool_calls, h1, h2, h3, h4]
  refine ⟨?_, ?_, ?_, by decide⟩
  · rw [hbatch]
    unfold extract_roo_xml_tool_calls
    rw [hfirst]
  · rw [hbatch]
    unfold extract_roo_xml_tool_calls
    rw [hfirst]
    simp only [hparams, List.foldl_nil, List.map_cons, List.map_nil]
    decide
  · rw [show extract_tool_calls_streaming cfg st p s d = streamingExtractRooXml st s
      from by simp [extract_tool_calls_streaming, hpss, hthinkB, hbrace, hlt, h4]]
    rw [show streamingExtractRooXml st s = (.ok none, st) from hroo9]

/-- Witness for C9 at the example span. -/
theorem roo_c9_witness :
    (extract_tool_calls "<attempt_completion></attempt_completion>".data).tools_called
      = true ∧
    (extract_tool_calls "<attempt_completion></attempt_completion>".data).tool_calls.map
      (fun tc => tc.function.arguments) = [['{', '}']] ∧
    (extract_tool_calls_streaming defaultStreamConfig initState []
      "<attempt_completion></attempt_completion>".data []).1 = .ok none ∧
    emitTotal (runDeltas defaultStreamConfig initState []
      ("<attempt_completion></attempt_completion>".data.map (fun ch => [ch]))) = 0 :=
  roo_c9_batch_streaming_divergence
    "<attempt_completion></attempt_completion>".data
    "attempt_completion".data [] defaultStreamConfig initState [] []
    (by decide) (by decide) (by decide) (by decide)
